import Mathlib

/-!
Verification development for the log2quickwit repository.

The repository has three programs:
* `v1.5.5/main.go` — the tailing log-ingestion pipeline (`parseLine`,
  `parseTimestamp`, `sendToQuickwitWithRetry`, `loadConfig`);
* `eduroam-accept` (realm-side query binary, `src/unnamed/part_001`);
* `eduroam-sp` (SP-side query binary, `src/unnamed/part_002`).

This file shallow-embeds the functions the claims are about.  Machine
integers are modelled as `Nat`/`Int` (no value in these programs comes near
an int64 overflow), Go `time.Time` values as integer nanoseconds since the
Unix epoch in a fixed-offset (UTC, no DST) location, Go maps as association
lists in insertion order (Go randomises iteration order; every property we
prove about map-derived data is independent of that order, and concrete
counterexamples are chosen so that the sort comparator forces a unique
result), and Go's unstable `sort.Slice` by `List.insertionSort` with the
source's comparator (both produce a permutation that is pairwise sorted with
respect to the comparator, which is the only guarantee used).
-/

namespace L2Q

/-! ### Go string primitives (models of the `strings` stdlib calls used) -/

/-- Model of the ASCII part of Go `unicode.IsSpace` (the log lines and
configuration files are ASCII; non-ASCII Unicode spaces are not modelled). -/
def isSpaceGo (c : Char) : Bool :=
  c == ' ' || c == '\t' || c == '\n' || c == '\r' || c == '\x0b' || c == '\x0c'

/-- Accumulator-style worker for `goFields`. -/
def fieldsAux : List Char → List Char → List String
  | [], acc => if acc.isEmpty then [] else [String.mk acc.reverse]
  | c :: cs, acc =>
    if isSpaceGo c then
      if acc.isEmpty then fieldsAux cs [] else String.mk acc.reverse :: fieldsAux cs []
    else fieldsAux cs (c :: acc)

/-- Model of Go `strings.Fields`: split around runs of whitespace. -/
def goFields (s : String) : List String := fieldsAux s.toList []

/-- First index of a character, model of Go `strings.Index(s, c)` for a
one-character needle (`"["`, `"]"`, `"="` in the source). `none` is Go's -1. -/
def indexOfChar : List Char → Char → Option Nat
  | [], _ => none
  | c :: cs, t => if c = t then some 0 else (indexOfChar cs t).map (· + 1)

/-- Model of Go `strings.TrimSuffix`. -/
def goTrimSuffix (s suf : String) : String :=
  if suf.toList.isSuffixOf s.toList then
    String.mk (s.toList.take (s.toList.length - suf.toList.length))
  else s

/-- Model of Go `strings.TrimPrefix`. -/
def goTrimStart (s pre : String) : String :=
  if pre.toList.isPrefixOf s.toList then String.mk (s.toList.drop pre.toList.length) else s

/-- Drop leading characters satisfying `p`. -/
def dropLeading (p : Char → Bool) : List Char → List Char
  | [] => []
  | c :: cs => if p c then dropLeading p cs else c :: cs

/-- Model of Go `strings.TrimSpace` (ASCII whitespace, see `isSpaceGo`). -/
def goTrimSpace (s : String) : String :=
  String.mk ((dropLeading isSpaceGo ((dropLeading isSpaceGo s.toList.reverse).reverse)))

/-- Model of Go `strings.Trim(s, cutset)` for a set of characters. -/
def goTrimChars (s : String) (cutset : List Char) : String :=
  String.mk ((dropLeading (· ∈ cutset) ((dropLeading (· ∈ cutset) s.toList.reverse).reverse)))

/-- Model of Go `strings.SplitN(s, sep, 2)` for a one-character separator. -/
def goSplitN2 (s : String) (sep : Char) : List String :=
  match indexOfChar s.toList sep with
  | none => [s]
  | some i => [String.mk (s.toList.take i), String.mk (s.toList.drop (i + 1))]

/-- `pre` is a prefix of `s`; model of Go `strings.HasPrefix` (and of the
`switch`-case prefix tests in `parseLine`). -/
def strStartsWith (s pre : String) : Bool := pre.toList.isPrefixOf s.toList

/-- Split at every occurrence of `c`; model of Go `strings.Split` for a
one-character separator. -/
def splitOnCharAux (c : Char) : List Char → List Char → List String
  | [], acc => [String.mk acc.reverse]
  | x :: xs, acc =>
    if x = c then String.mk acc.reverse :: splitOnCharAux c xs []
    else splitOnCharAux c xs (x :: acc)

def splitOnChar (c : Char) (s : String) : List String := splitOnCharAux c s.toList []

/-- Join with single spaces; model of `strings.Join(parts, " ")`. -/
def strJoinSpace : List String → String
  | [] => ""
  | [x] => x
  | x :: rest => String.mk (x.toList ++ ' ' :: (strJoinSpace rest).toList)

/-- Numeric value of a decimal digit character. -/
def digitVal? (c : Char) : Option Nat :=
  if c.isDigit then some (c.toNat - 48) else none

/-- All-decimal-digit string (nonempty) to a natural number. -/
def digitsToNat? (cs : List Char) : Option Nat :=
  match cs with
  | [] => none
  | _ => cs.foldl (fun acc c =>
      match acc, digitVal? c with
      | some a, some d => some (a * 10 + d)
      | _, _ => none) (some 0)

/-- Model of Go `strconv.Atoi` / `strconv.ParseInt(s, 10, 64)`: optional
sign followed by at least one digit.  (Go additionally errors on 64-bit
overflow; no value in the claims comes near that bound.) -/
def atoiGo (s : String) : Option Int :=
  match s.toList with
  | '+' :: rest => (digitsToNat? rest).map (fun n => (n : Int))
  | '-' :: rest => (digitsToNat? rest).map (fun n => -(n : Int))
  | l => (digitsToNat? l).map (fun n => (n : Int))

/-! ### Calendar arithmetic

The Go `time` package's proleptic Gregorian calendar, for dates from 1970
on (every timestamp in the programs and claims is post-epoch). -/

/-- Leap-year rule; transcribed from `isLeapYear` in `eduroam-sp`
(part_002, line 500). -/
def isLeapYear (year : Nat) : Bool :=
  year % 4 == 0 && (year % 100 != 0 || year % 400 == 0)

/-- Days in a month of the Gregorian calendar. -/
def daysInMonth (year m : Nat) : Nat :=
  if m = 2 then (if isLeapYear year then 29 else 28)
  else if m = 4 ∨ m = 6 ∨ m = 9 ∨ m = 11 then 30
  else 31

/-- Number of days from 1970-01-01 to the given civil date (valid for
years ≥ 1970). -/
def daysFromEpoch (year month day : Nat) : Nat :=
  (List.range (year - 1970)).foldl
      (fun acc i => acc + (if isLeapYear (1970 + i) then 366 else 365)) 0
    + (List.range (month - 1)).foldl (fun acc i => acc + daysInMonth year (i + 1)) 0
    + (day - 1)

/-- Seconds since the Unix epoch of a (UTC) civil date-time. -/
def secondsFromDateTime (year month day h mi s : Nat) : Nat :=
  daysFromEpoch year month day * 86400 + h * 3600 + mi * 60 + s

/-! ### Timestamp parsing (`parseTimestamp`, v1.5.5 lines 265–286)

`time.Parse(time.RFC3339, s)` demands the full layout
`2006-01-02T15:04:05Z07:00`: date, `T`, clock, then a **mandatory** zone
(`Z` or `±hh:mm`), with an optional fractional-second part accepted between
the seconds and the zone.  The fallback appends the current year and parses
with layout `Jan 2 15:04:05 2006`. -/

/-- Two decimal digits to a number. -/
def num2? (a b : Char) : Option Nat := do
  let x ← digitVal? a
  let y ← digitVal? b
  some (x * 10 + y)

/-- Parse the timezone suffix of an RFC3339 string: `Z` or `±hh:mm`,
returning the offset east of UTC in seconds. -/
def zoneParse : List Char → Option Int
  | ['Z'] => some 0
  | ['+', h1, h2, ':', m1, m2] => do
      let h ← num2? h1 h2
      let m ← num2? m1 m2
      some ((h * 3600 + m * 60 : Nat) : Int)
  | ['-', h1, h2, ':', m1, m2] => do
      let h ← num2? h1 h2
      let m ← num2? m1 m2
      some (-((h * 3600 + m * 60 : Nat) : Int))
  | _ => none

/-- Drop an optional fractional-second part (a dot followed by at least one
digit), which Go's `time.Parse` accepts and truncates. -/
def dropFraction : List Char → List Char
  | '.' :: d :: ds => if d.isDigit then dropLeading Char.isDigit (d :: ds) else '.' :: d :: ds
  | l => l

/-- Model of `time.Parse(time.RFC3339, s)`, in seconds since the epoch.
Rejects strings without a timezone suffix, as Go does.  (Years before 1970
are not modelled; every date in this repository is post-epoch.) -/
def rfc3339Parse (s : String) : Option Int :=
  match s.toList with
  | y1 :: y2 :: y3 :: y4 :: '-' :: mo1 :: mo2 :: '-' :: d1 :: d2 :: 'T' ::
    h1 :: h2 :: ':' :: mi1 :: mi2 :: ':' :: s1 :: s2 :: rest => do
      let y ← num2? y1 y2
      let y' ← num2? y3 y4
      let year := y * 100 + y'
      let month ← num2? mo1 mo2
      let day ← num2? d1 d2
      let h ← num2? h1 h2
      let mi ← num2? mi1 mi2
      let se ← num2? s1 s2
      let off ← zoneParse (dropFraction rest)
      if 1 ≤ month ∧ month ≤ 12 ∧ 1 ≤ day ∧ day ≤ daysInMonth year month ∧
          h ≤ 23 ∧ mi ≤ 59 ∧ se ≤ 59 ∧ 1970 ≤ year then
        some ((secondsFromDateTime year month day h mi se : Nat) - off)
      else none
  | _ => none

/-- The clock reading `time.Now()` returns, as used by `parseTimestamp`:
its calendar year and its value in seconds since the epoch. -/
structure GoNow where
  year : Nat
  sec : Int
deriving DecidableEq, Repr

/-- Month number of a three-letter English month name. -/
def monthNum? (s : String) : Option Nat :=
  match s with
  | "Jan" => some 1 | "Feb" => some 2 | "Mar" => some 3 | "Apr" => some 4
  | "May" => some 5 | "Jun" => some 6 | "Jul" => some 7 | "Aug" => some 8
  | "Sep" => some 9 | "Oct" => some 10 | "Nov" => some 11 | "Dec" => some 12
  | _ => none

/-- A `HH:MM:SS` clock component. -/
def clockParse? (s : String) : Option (Nat × Nat × Nat) :=
  match s.toList with
  | [h1, h2, ':', m1, m2, ':', s1, s2] => do
      let h ← num2? h1 h2
      let m ← num2? m1 m2
      let sec ← num2? s1 s2
      if h ≤ 23 ∧ m ≤ 59 ∧ sec ≤ 59 then some (h, m, sec) else none
  | _ => none

/-- A day token of the `Jan 2 15:04:05` layout: one or two digits. -/
def dayParse? (s : String) : Option Nat :=
  match s.toList with
  | [d] => digitVal? d
  | [d1, d2] => num2? d1 d2
  | _ => none

/-- Model of the fallback branch of `parseTimestamp` (v1.5.5 lines
272–285): parse `s ++ " " ++ currentYear` with layout `Jan 2 15:04:05
2006`, then apply the December year-rollover rule. -/
def syslogParse (now : GoNow) (s : String) : Option Int :=
  match splitOnChar ' ' s with
  | [monS, dayS, hmsS] => do
      let mon ← monthNum? monS
      let day ← dayParse? dayS
      let (h, mi, se) ← clockParse? hmsS
      if 1 ≤ day ∧ day ≤ daysInMonth now.year mon then
        let t : Int := (secondsFromDateTime now.year mon day h mi se : Nat)
        if t > now.sec ∧ mon = 12 then
          some ((secondsFromDateTime (now.year - 1) mon day h mi se : Nat) : Int)
        else some t
      else none
  | _ => none

/-- Model of `parseTimestamp` (v1.5.5 lines 265–286): try the RFC3339
layout first, then the legacy syslog layout with the current year. -/
def parseTimestamp (now : GoNow) (s : String) : Option Int :=
  match rfc3339Parse s with
  | some t => some t
  | none => syslogParse now s

/-! ### `parseLine` (v1.5.5 lines 289–371)

Go's `parts[i]` and `parts[lo:hi]` panic out of range; those sites are
modelled explicitly (`Option`, with `none` = runtime panic).  Accesses the
source makes only under an already-established bound are written with
`getD` and a comment.  The entry's `Timestamp` field holds the parsed
instant in epoch seconds (the source stores its RFC3339 rendering; the
formatting step is injective on instants and not itself claimed about). -/

/-- The fields of the v1.5.5 `LogEntry` that `parseLine` can set.  Fields
the parser never writes (`log_level`, `source_ip`, `status`, …) are
omitted.  `DestinationIP` holds the textual IP when `net.ParseIP`
succeeded and `""` otherwise (Go keeps a `nil` `net.IP`, omitted on the
wire). -/
structure LogEntry where
  Timestamp : Int := 0
  Hostname : String := ""
  Process : String := ""
  PID : Int := 0
  MessageType : String := ""
  FullMessage : String := ""
  Username : String := ""
  StationID : String := ""
  Realm : String := ""
  ServiceProvider : String := ""
  DestinationIP : String := ""
  RepeatCount : Int := 0
deriving DecidableEq, Repr

/-- Result of one `parseLine` call: a parsed entry, a returned parse
error, or a runtime panic (out-of-range slice or index). -/
inductive ParseOutcome where
  | ok (e : LogEntry)
  | error
  | panicked
deriving DecidableEq, Repr

/-- Go slice expression `xs[lo:hi]`: panics (`none`) unless
`lo ≤ hi ≤ len`. -/
def goSlice (xs : List String) (lo hi : Nat) : Option (List String) :=
  if lo ≤ hi ∧ hi ≤ xs.length then some ((xs.drop lo).take (hi - lo)) else none

/-- Dotted-quad IPv4 recogniser: model of `net.ParseIP` for the address
shapes appearing in these logs (0–255 components, no leading zeros; the
IPv6 textual forms `net.ParseIP` also accepts are not modelled — no claim
inspects this field). -/
def ipv4Octet? (s : String) : Option Nat :=
  match s.toList with
  | [] => none
  | c :: rest =>
    if c = '0' ∧ rest ≠ [] then none
    else match digitsToNat? (c :: rest) with
      | some n => if n ≤ 255 ∧ (c :: rest).length ≤ 3 then some n else none
      | none => none

/-- Model of `net.ParseIP` restricted to IPv4 (see `ipv4Octet?`): the
input text when it is a valid address, `""` (Go `nil`) otherwise. -/
def parseIPGo (s : String) : String :=
  match (splitOnChar '.' s).mapM ipv4Octet? with
  | some parts => if parts.length = 4 then s else ""
  | none => ""

/-- One iteration of the Access-* field-marker loop (v1.5.5 lines
352–366); `i` is the loop index over `parts[startIndex+2:]`.  The
follower accesses `parts[i+startIndex+3]` are unchecked in the source and
panic (`none`) when the marker is the last token; only the destination-IP
access at `i+startIndex+4` is bounds-checked. -/
def accessStep (parts : List String) (startIndex i : Nat) (e : LogEntry) : Option LogEntry :=
  let part := parts.getD (startIndex + 2 + i) ""  -- in bounds: i ranges over the suffix
  if strStartsWith part "user" then
    match parts[i + startIndex + 3]? with
    | none => none
    | some v => some { e with Username := v }
  else if strStartsWith part "stationid" then
    match parts[i + startIndex + 3]? with
    | none => none
    | some v => some { e with StationID := v }
  else if part = "from" then
    match parts[i + startIndex + 3]? with
    | none => none
    | some v => some { e with Realm := v }
  else if part = "to" then
    match parts[i + startIndex + 3]? with
    | none => none
    | some v =>
      let e2 := { e with ServiceProvider := v }
      if i + startIndex + 4 < parts.length then
        let tok := parts.getD (i + startIndex + 4) ""
        some { e2 with DestinationIP := parseIPGo (goTrimChars tok ['(', ')']) }
      else some e2
  else some e

/-- The Access-* capture loop: `n` iterations remaining, current index
`i`. -/
def accessLoop (parts : List String) (startIndex : Nat) : Nat → Nat → LogEntry → Option LogEntry
  | 0, _, e => some e
  | n + 1, i, e =>
    match accessStep parts startIndex i e with
    | none => none
    | some e2 => accessLoop parts startIndex n (i + 1) e2

/-- Process-name/pid split (v1.5.5 lines 332–344): an optional bracketed
numeric pid inside the token. -/
def splitProcessPid (e : LogEntry) (pwp : String) : LogEntry :=
  let cs := pwp.toList
  match indexOfChar cs '[', indexOfChar cs ']' with
  | some ps, some pe =>
    if ps < pe then
      let e1 := { e with Process := String.mk (cs.take ps) }
      match atoiGo (String.mk ((cs.drop (ps + 1)).take (pe - ps - 1))) with
      | some pid => { e1 with PID := pid }
      | none => e1
    else { e with Process := pwp }
  | _, _ => { e with Process := pwp }

/-- Model of `parseLine` (v1.5.5 lines 289–371). -/
def parseLine (now : GoNow) (line : String) : ParseOutcome :=
  let parts := goFields line
  if parts.length < 5 then .error
  else
    let p0 := parts.getD 0 ""          -- in bounds: length ≥ 5
    let isIso := 'T' ∈ p0.toList       -- strings.Contains(parts[0], "T")
    let timestampStr := if isIso then p0 else strJoinSpace (parts.take 3)
    let hostname := if isIso then parts.getD 1 "" else parts.getD 3 ""
    let startIndex := if isIso then 2 else 4
    match parseTimestamp now timestampStr with
    | none => .error
    | some ts =>
      let base : LogEntry := { FullMessage := line, Hostname := hostname, Timestamp := ts }
      -- "last message repeated" check slices parts[startIndex : startIndex+3] unchecked
      match goSlice parts startIndex (startIndex + 3) with
      | none => .panicked
      | some seg =>
        if strJoinSpace seg = "last message repeated" then
          let e1 := { base with Process := "system", MessageType := "repeat" }
          let rcStr := goTrimSuffix (parts.getD (parts.length - 2) "") " times"
          match atoiGo rcStr with
          | some rc => .ok { e1 with RepeatCount := rc }
          | none => .ok e1
        else
          let e2 := splitProcessPid base (parts.getD startIndex "")
          if parts.length > startIndex + 1 then
            let mt := goTrimSuffix (parts.getD (startIndex + 1) "") ":"
            let e3 := { e2 with MessageType := mt }
            if mt = "Access-Accept" ∨ mt = "Access-Reject" ∨ mt = "Access-Challenge" then
              match accessLoop parts startIndex (parts.length - (startIndex + 2)) 0 e3 with
              | none => .panicked
              | some e4 => .ok e4
            else .ok e3
          else .ok e2

/-! ### Ingest transport retry (`sendToQuickwitWithRetry`, v1.5.5 lines 404–425)

`sendToQuickwit` (the HTTP POST) is abstracted as a deterministic function
from the attempted batch to one of three outcomes, matching the error
classification the retry loop performs on the returned error text:
`ok` (nil error), `tooLarge` (error containing `413` / `Payload Too
Large`), `other` (any other error, which triggers backoff). -/

/-- Outcome classification of one `sendToQuickwit` call. -/
inductive SendResult where
  | ok
  | tooLarge
  | other
deriving DecidableEq, Repr

/-- Observable outcome of `sendToQuickwitWithRetry`: either the function
returns `nil` after the server accepted the (possibly shrunken) batch it
last attempted, or it returns an error having delivered nothing. -/
inductive RetryOutcome (α : Type) where
  | success (delivered : List α)
  | failure
deriving DecidableEq, Repr

/-- The retry loop body: `batchSize` is the working size, `attempts` the
remaining iterations of `for i := 0; i < maxRetries; i++`. -/
def sendLoop {α : Type} (server : List α → SendResult) (entries : List α) :
    Nat → Nat → RetryOutcome α
  | _, 0 => .failure
  | batchSize, attempts + 1 =>
    match server (entries.take batchSize) with
    | .ok => .success (entries.take batchSize)
    | .tooLarge =>
      let bs := batchSize / 2
      if bs < 1 then .failure else sendLoop server entries bs attempts
    | .other => sendLoop server entries batchSize attempts

/-- Model of `sendToQuickwitWithRetry` (v1.5.5 lines 404–425). -/
def sendToQuickwitWithRetry {α : Type} (server : List α → SendResult)
    (entries : List α) (maxRetries : Nat) : RetryOutcome α :=
  sendLoop server entries entries.length maxRetries

/-! ### Configuration loading (`loadConfig`, v1.5.5 lines 519–577) -/

/-- The v1.5.5 `Config` record. -/
structure Config where
  LogFilePath : String := ""
  QuickwitURL : String := ""
  Username : String := ""
  Password : String := ""
  BatchSize : Int := 30000
  MaxRetries : Int := 3
deriving DecidableEq, Repr

/-- The defaults `loadConfig` starts from (v1.5.5 lines 520–523). -/
def defaultConfig : Config := {}

/-- The key/value switch of `loadConfig` (v1.5.5 lines 547–564):
`batchSize` and `maxRetries` are updated only when `strconv.Atoi`
succeeds. -/
def applyConfigKV (c : Config) (key value : String) : Config :=
  if key = "logFilePath" then { c with LogFilePath := value }
  else if key = "quickwitURL" then { c with QuickwitURL := value }
  else if key = "username" then { c with Username := value }
  else if key = "password" then { c with Password := value }
  else if key = "batchSize" then
    match atoiGo value with
    | some i => { c with BatchSize := i }
    | none => c
  else if key = "maxRetries" then
    match atoiGo value with
    | some i => { c with MaxRetries := i }
    | none => c
  else c

/-- Per-line processing of `loadConfig` (v1.5.5 lines 532–545): trim,
skip blanks and `#` comments, split at the first `=`, trim key and value,
strip surrounding double quotes from the value. -/
def applyConfigLine (c : Config) (rawLine : String) : Config :=
  let line := goTrimSpace rawLine
  if line = "" ∨ strStartsWith line "#" then c
  else
    match goSplitN2 line '=' with
    | [key, value] =>
      applyConfigKV c (goTrimSpace key) (goTrimChars (goTrimSpace value) ['"'])
    | _ => c  -- SplitN produced one part: no '=' in the line, skipped

/-- Model of `loadConfig` over the file's lines: fold, then validate the
four required string fields (v1.5.5 lines 571–574).  `none` is the
"missing required configuration" error. -/
def loadConfigLines (lines : List String) : Option Config :=
  let c := lines.foldl applyConfigLine defaultConfig
  if c.LogFilePath = "" ∨ c.QuickwitURL = "" ∨ c.Username = "" ∨ c.Password = "" then none
  else some c

/-! ### Range sharding (query drivers, part_001 lines 538–550 and
part_002 lines 991–1003)

Both drivers normalise `startDate` to 00:00:00.000000000 and `endDate` to
23:59:59.999999999 of their respective days and then walk `currentDate`
in 24 h steps, capping at `endDate`, emitting Unix-second Jobs.  Times
are modelled as integer nanoseconds since the epoch in a fixed-offset
location (no DST), so a date is `day * dayNs` where `day` is its epoch
day number. -/

def nsPerSec : Nat := 1000000000

def dayNs : Nat := 86400 * nsPerSec

/-- A query `Job`: a half-open interval of Unix seconds. -/
structure Job where
  StartTimestamp : Nat
  EndTimestamp : Nat
deriving DecidableEq, Repr

/-- The `for currentDate.Before(endDate)` loop, fuel-indexed (the fuel
passed by `enumerateJobs` is shown sufficient by `jobsLoop_eq_mkJobs`,
and once the guard fails any extra fuel is unused). -/
def jobsLoop : Nat → Nat → Nat → List Job
  | 0, _, _ => []
  | fuel + 1, endNs, cur =>
    if cur < endNs then
      ⟨cur / nsPerSec, min (cur + dayNs) endNs / nsPerSec⟩ ::
        jobsLoop fuel endNs (min (cur + dayNs) endNs)
    else []

/-- `time.Date(y, m, d, 0, 0, 0, 0, loc)` of epoch day `d`. -/
def startNsOfDay (d : Nat) : Nat := d * dayNs

/-- `time.Date(y, m, d, 23, 59, 59, 999999999, loc)` of epoch day `d`. -/
def endNsOfDay (d : Nat) : Nat := (d + 1) * dayNs - 1

/-- The Jobs the drivers emit for the day-aligned range `[dS, dE]`
(inclusive epoch day numbers). -/
def enumerateJobs (dS dE : Nat) : List Job :=
  jobsLoop (dE + 2 - dS) (endNsOfDay dE) (startNsOfDay dS)

/-- Closed form of one emitted Job. -/
def jobSpec (dE k i : Nat) : Job :=
  ⟨(k + i) * 86400, min ((k + i + 1) * 86400) (dE * 86400 + 86399)⟩

/-- Closed form of the emitted Job list. -/
def mkJobs (k dE : Nat) : List Job :=
  (List.range (dE + 1 - k)).map (jobSpec dE k)

/-- `t` lies in the half-open interval of `j`. -/
def jobContains (j : Job) (t : Nat) : Prop :=
  j.StartTimestamp ≤ t ∧ t < j.EndTimestamp

instance (j : Job) (t : Nat) : Decidable (jobContains j t) := by
  unfold jobContains; infer_instance

/-! ### CLI argument classification (realm side, part_001 lines 451–465;
SP side year branch, part_002 lines 872–887) -/

/-- `DD-MM-YYYY` date parsing: model of
`time.Parse("02-01-2006", s)` — exactly two digits, dash, two digits,
dash, four digits, with month and day-of-month range checks as Go
performs. -/
def parseDDMMYYYY (s : String) : Option (Nat × Nat × Nat) :=
  match s.toList with
  | [d1, d2, '-', m1, m2, '-', y1, y2, y3, y4] => do
    let d ← num2? d1 d2
    let m ← num2? m1 m2
    let yh ← num2? y1 y2
    let yl ← num2? y3 y4
    let y := yh * 100 + yl
    if 1 ≤ m ∧ m ≤ 12 ∧ 1 ≤ d ∧ d ≤ daysInMonth y m then some (d, m, y) else none
  | _ => none

/-- How the realm-side binary treats its second argument. -/
inductive RealmArg where
  | daysMode (d : Int)
  | dateMode (day month year : Nat)
  | fatal
deriving DecidableEq, Repr

/-- Model of the argument branch of the realm-side `main` (part_001
lines 451–465): a value accepted by `strconv.Atoi` with `d <= 366` is a
day count (the source has no lower bound); anything else is tried as a
`DD-MM-YYYY` date, and a date-parse failure is `log.Fatalf`. -/
def realmClassifyArg (arg : String) : RealmArg :=
  match atoiGo arg with
  | some d =>
    if d ≤ 366 then .daysMode d
    else
      match parseDDMMYYYY arg with
      | some (day, month, year) => .dateMode day month year
      | none => .fatal
  | none =>
    match parseDDMMYYYY arg with
    | some (day, month, year) => .dateMode day month year
    | none => .fatal

/-- Day count the SP-side driver assigns to a `yYYYY` argument
(part_002 lines 878–881). -/
def spDaysForYear (year : Nat) : Nat :=
  if isLeapYear year then 366 else 365

/-- Epoch-day range `[Jan 1, Dec 31]` the SP-side driver queries for a
`yYYYY` argument (part_002 lines 876–877 after the day-alignment at lines
925–926). -/
def spYearRange (year : Nat) : Nat × Nat :=
  (daysFromEpoch year 1 1, daysFromEpoch year 12 31)

/-! ### Decoded JSON trees and the bucket folds

`encoding/json` decodes into `map[string]interface{}` trees; `JVal` is
that dynamic value universe (numbers as `ℚ`, standing for `float64`; the
doc counts and histogram keys in play are integers, exactly representable
either way).  A checked Go type assertion `v, ok := x.(T)` is an `as…?`
returning `Option`; an unchecked `x.(T)` panics when it fails, modelled by
`none` propagating through the fold (`Option` result, `none` = panic). -/

inductive JVal where
  | jnull
  | jbool (b : Bool)
  | jnum (q : ℚ)
  | jstr (s : String)
  | jarr (elems : List JVal)
  | jobj (fields : List (String × JVal))

/-- Go map indexing `m["k"]`: the zero `interface{}` (nil) when absent. -/
def jgetF : List (String × JVal) → String → JVal
  | [], _ => .jnull
  | (k, v) :: rest, key => if k = key then v else jgetF rest key

/-- Checked assertion `.(map[string]interface{})`. -/
def asObj? : JVal → Option (List (String × JVal))
  | .jobj f => some f
  | _ => none

/-- Checked assertion `.([]interface{})`. -/
def asArr? : JVal → Option (List JVal)
  | .jarr xs => some xs
  | _ => none

/-- Checked assertion `.(string)`. -/
def asStr? : JVal → Option String
  | .jstr s => some s
  | _ => none

/-- Checked assertion `.(float64)`. -/
def asNum? : JVal → Option ℚ
  | .jnum q => some q
  | _ => none

/-- `int64(q)` — truncation toward zero, as Go's float-to-int
conversion (`Int.tdiv` truncates toward zero; `q.den` is positive). -/
def ratTrunc (q : ℚ) : Int :=
  q.num.tdiv (q.den : Int)

/-- `int64(q / 1000)` — the histogram-key millisecond-to-second
conversion, computed on the exact rational (the keys in play are exactly
representable in `float64`, where the Go division is exact). -/
def ratDiv1000Trunc (q : ℚ) : Int :=
  q.num.tdiv ((q.den : Int) * 1000)

/-- The synthetic `LogEntry` the realm-side fold sends to the merge
channel (part_001 lines 89–93). -/
structure AggEntry where
  Username : String
  ServiceProvider : String
  Timestamp : Int
deriving DecidableEq, Repr

/-- Model of `processUserProviderDaily` (part_001 lines 319–337).  The
`daily` and `buckets` lookups are checked (failure skips silently); the
per-bucket `doc_count` and `key` assertions are unchecked (panic). -/
def processUserProviderDaily (bucket : List (String × JVal)) (username provider : String) :
    Option (List AggEntry) :=
  match asObj? (jgetF bucket "daily") with
  | none => some []
  | some dailyAgg =>
    match asArr? (jgetF dailyAgg "buckets") with
    | none => some []
    | some dailyBuckets =>
      dailyBuckets.foldlM (fun acc db =>
        match asObj? db with
        | none => some acc
        | some dbo => do
          let dc ← asNum? (jgetF dbo "doc_count")
          if dc = 0 then some acc
          else do
            let key ← asNum? (jgetF dbo "key")
            some (acc ++ [⟨username, provider, ratDiv1000Trunc key⟩])) []

/-- Model of `processUserBucket` (part_001 lines 303–316).  Note the
source passes the *user* bucket to `processUserProviderDaily`, so the
same daily histogram is re-emitted once per provider. -/
def processUserBucket (bucket : List (String × JVal)) (username : String) :
    Option (List AggEntry) :=
  match asObj? (jgetF bucket "providers") with
  | none => some []
  | some providersAgg =>
    match asArr? (jgetF providersAgg "buckets") with
    | none => some []
    | some pbs =>
      pbs.foldlM (fun acc pb =>
        match asObj? pb with
        | none => some acc
        | some pbo => do
          let provider ← asStr? (jgetF pbo "key")
          let es ← processUserProviderDaily bucket username provider
          some (acc ++ es)) []

/-- Result of folding one decoded response. -/
inductive AggOutcome (α : Type) where
  | fail
  | panicked
  | ok (entries : List α) (hits : Int)
deriving DecidableEq, Repr

/-- Model of the realm-side `processAggregations` (part_001 lines
269–300): a missing `aggregations` / `unique_users` / `buckets` path
fails the Job; a non-map bucket is skipped; the `key` and `doc_count`
assertions inside a map bucket are unchecked. -/
def processAggregations (result : List (String × JVal)) : AggOutcome AggEntry :=
  match asObj? (jgetF result "aggregations") with
  | none => .fail
  | some aggs =>
    match asObj? (jgetF aggs "unique_users") with
    | none => .fail
    | some uu =>
      match asArr? (jgetF uu "buckets") with
      | none => .fail
      | some buckets =>
        match buckets.foldlM (fun (acc : List AggEntry × Int) b =>
            match asObj? b with
            | none => some acc
            | some bo => do
              let username ← asStr? (jgetF bo "key")
              let dc ← asNum? (jgetF bo "doc_count")
              let es ← processUserBucket bo username
              some (acc.1 ++ es, acc.2 + ratTrunc dc)) ([], 0) with
        | none => .panicked
        | some (es, h) => .ok es h

/-- The synthetic `LogEntry` of the SP-side fold (part_002 lines
52–58). -/
structure SPAggEntry where
  Username : String
  Realm : String
  StationID : String
  Timestamp : Int
deriving DecidableEq, Repr

/-- Model of `processUserAuthTimes` (part_002 lines 422–447). -/
def processUserAuthTimes (bucket : List (String × JVal)) (username realm stationID : String) :
    Option (List SPAggEntry) :=
  match asObj? (jgetF bucket "auth_times") with
  | none => some []
  | some authTimes =>
    match asArr? (jgetF authTimes "buckets") with
    | none => some []
    | some timeBuckets =>
      timeBuckets.foldlM (fun acc tb =>
        match asObj? tb with
        | none => some acc
        | some tbo => do
          let dc ← asNum? (jgetF tbo "doc_count")
          if dc = 0 then some acc
          else do
            let key ← asNum? (jgetF tbo "key")
            some (acc ++ [⟨username, realm, stationID, ratDiv1000Trunc key⟩])) []

/-- Model of `processStationBucket` (part_002 lines 388–419): the
`by_user`, `by_realm` and `buckets` lookups are checked; the user and
realm `key` assertions are unchecked; `processUserAuthTimes` runs only
when the first realm bucket is a map. -/
def processStationBucket (bucket : List (String × JVal)) (stationID : String) :
    Option (List SPAggEntry) :=
  match asObj? (jgetF bucket "by_user") with
  | none => some []
  | some byUser =>
    match asArr? (jgetF byUser "buckets") with
    | none => some []
    | some userBuckets =>
      userBuckets.foldlM (fun acc ub =>
        match asObj? ub with
        | none => some acc
        | some ubo => do
          let username ← asStr? (jgetF ubo "key")
          match asObj? (jgetF ubo "by_realm") with
          | none => some acc
          | some byRealm =>
            match asArr? (jgetF byRealm "buckets") with
            | none => some acc
            | some realmBuckets =>
              match realmBuckets.head? with
              | none => some acc
              | some rb0 =>
                match asObj? rb0 with
                | none => some acc
                | some rbo => do
                  let realm ← asStr? (jgetF rbo "key")
                  let es ← processUserAuthTimes ubo username realm stationID
                  some (acc ++ es)) []

/-- Model of the SP-side `processAggregations` (part_002 lines
781–812). -/
def processAggregationsSP (result : List (String × JVal)) : AggOutcome SPAggEntry :=
  match asObj? (jgetF result "aggregations") with
  | none => .fail
  | some aggs =>
    match asObj? (jgetF aggs "by_station") with
    | none => .fail
    | some bs =>
      match asArr? (jgetF bs "buckets") with
      | none => .fail
      | some buckets =>
        match buckets.foldlM (fun (acc : List SPAggEntry × Int) b =>
            match asObj? b with
            | none => some acc
            | some bo => do
              let stationID ← asStr? (jgetF bo "key")
              let dc ← asNum? (jgetF bo "doc_count")
              let es ← processStationBucket bo stationID
              some (acc.1 ++ es, acc.2 + ratTrunc dc)) ([], 0) with
        | none => .panicked
        | some (es, h) => .ok es h

/-! ### Go maps and string sets

`map[string]T` is modelled by an association list in insertion order
(iteration order of a Go map is randomised; every theorem below is
independent of the order, and the concrete counterexample inputs are
chosen so that a strict sort comparator forces one result).
`map[string]bool` sets are duplicate-free lists. -/

/-- Lookup in an association list (first match). -/
def slookup {α : Type} : List (String × α) → String → Option α
  | [], _ => none
  | (k, v) :: rest, key => if k = key then some v else slookup rest key

/-- Go map store `m[key] = f (m[key])`: update in place when the key
exists, append otherwise. -/
def supdate {α : Type} (m : List (String × α)) (key : String) (f : Option α → α) :
    List (String × α) :=
  match m with
  | [] => [(key, f none)]
  | (k, v) :: rest =>
    if k = key then (k, f (some v)) :: rest else (k, v) :: supdate rest key f

/-- `set[x] = true` on a `map[string]bool` set. -/
def setInsert (xs : List String) (x : String) : List String :=
  if x ∈ xs then xs else xs ++ [x]

/-! ### Realm-side result merge (`processResults`, part_001 lines 340–370)

The merger first accumulates `userMap : map[user]map[provider]bool` from
the channel, then folds it into the (initially empty) `Result`. -/

/-- `userMap[u][p] = true` (creating the inner map when absent). -/
def addObserved (m : List (String × List String)) (u p : String) :
    List (String × List String) :=
  supdate m u (fun o => setInsert (o.getD []) p)

/-- The realm-side `Result` (part_001 lines 106–109): each user's
provider set and each provider's user set. -/
structure RealmResult where
  Users : List (String × List String)
  Providers : List (String × List String)
deriving DecidableEq, Repr

/-- Inner loop of the merge (part_001 lines 359–368) for one provider of
one user. -/
def mergeProv (r : RealmResult) (u p : String) : RealmResult :=
  ⟨supdate r.Users u (fun o => setInsert (o.getD []) p),
   supdate r.Providers p (fun o => setInsert (o.getD []) u)⟩

/-- Merge of one `userMap` pair into the result (part_001 lines
352–369): ensure the user key exists, then insert each observed
provider on both sides. -/
def mergeUser (r : RealmResult) (u : String) (ps : List String) : RealmResult :=
  ps.foldl (fun acc p => mergeProv acc u p)
    ⟨supdate r.Users u (fun o => o.getD []), r.Providers⟩

/-- The first loop of the realm-side `processResults` (part_001 lines
341–347): accumulate `userMap` from the channel entries. -/
def buildUserMap (m : List (String × List String)) (entries : List AggEntry) :
    List (String × List String) :=
  entries.foldl (fun acc e => addObserved acc e.Username e.ServiceProvider) m

/-- The second loop of the realm-side `processResults` (part_001 lines
352–369): merge every `userMap` pair into the result. -/
def mergeAll (r : RealmResult) (userMap : List (String × List String)) : RealmResult :=
  userMap.foldl (fun acc uv => mergeUser acc uv.1 uv.2) r

/-- Model of the realm-side `processResults` applied to the entries the
workers emitted, starting from the empty `Result` built in `main`. -/
def processResults (entries : List AggEntry) : RealmResult :=
  mergeAll ⟨[], []⟩ (buildUserMap [] entries)

/-! ### SP-side result merge (`processResults`, part_002 lines 678–731) -/

/-- Authentication activity of one user on one station (part_002 lines
61–65).  The realm recorded is the one of the first entry seen. -/
structure UserActivity where
  Realm : String
  AuthTimestamps : List Int
deriving DecidableEq, Repr

/-- Per-station statistics (part_002 lines 68–72). -/
structure StationStats where
  TotalAuths : Nat
  Users : List (String × UserActivity)
deriving DecidableEq, Repr

/-- Per-realm statistics (part_002 lines 86–91). -/
structure RealmStats where
  Users : List String
  Stations : List String
  TotalAuths : Nat
deriving DecidableEq, Repr

/-- The SP-side `Result` (part_002 lines 284–287). -/
structure SPResult where
  Stations : List (String × StationStats)
  Realms : List (String × RealmStats)
deriving DecidableEq, Repr

/-- One channel entry folded into the SP result (part_002 lines
679–718). -/
def spStep (r : SPResult) (e : SPAggEntry) : SPResult :=
  ⟨supdate r.Stations e.StationID (fun o =>
      let st := o.getD ⟨0, []⟩
      ⟨st.TotalAuths + 1,
       supdate st.Users e.Username (fun uo =>
         match uo with
         | none => ⟨e.Realm, [e.Timestamp]⟩
         | some ua => ⟨ua.Realm, ua.AuthTimestamps ++ [e.Timestamp]⟩)⟩),
   supdate r.Realms e.Realm (fun o =>
      let rs := o.getD ⟨[], [], 0⟩
      ⟨setInsert rs.Users e.Username, setInsert rs.Stations e.StationID,
       rs.TotalAuths + 1⟩)⟩

/-- The final pass of the SP-side `processResults` (part_002 lines
722–730): sort every activity's timestamps ascending. -/
def sortStationTimestamps (r : SPResult) : SPResult :=
  ⟨r.Stations.map (fun kv =>
      (kv.1, ⟨kv.2.TotalAuths,
              kv.2.Users.map (fun uv =>
                (uv.1, ⟨uv.2.Realm,
                        List.insertionSort (fun a b => a ≤ b) uv.2.AuthTimestamps⟩))⟩)),
   r.Realms⟩

/-- Model of the SP-side `processResults` over the emitted entries,
starting from the empty `Result` built in `main`. -/
def processResultsSP (entries : List SPAggEntry) : SPResult :=
  sortStationTimestamps (entries.foldl spStep ⟨[], []⟩)

/-! ### Output materialisation (`createOutputData`)

Realm side: part_001 lines 373–438; SP side: part_002 lines 188–281.
`sort.Slice` guarantees only a permutation pairwise-sorted under the
given comparator (it is *not* stable); it is modelled by
`List.insertionSort` with the source comparator, which shares exactly
that guarantee.  The SP station records carry the fields the claims
mention; the per-station pattern-analysis sub-structures
(`usage_patterns`, `session_analysis`, `potential_issues`) are not
modelled — no claim refers to them. -/

/-- One `provider_stats` output row (part_001 lines 124–128). -/
structure ProvStat where
  Provider : String
  UserCount : Nat
  Users : List String
deriving DecidableEq, Repr

/-- One `user_stats` output row (part_001 lines 129–132). -/
structure UserStatOut where
  Username : String
  Providers : List String
deriving DecidableEq, Repr

/-- The realm-side output document (summary plus the two sorted
arrays). -/
structure RealmOutput where
  TotalUsers : Nat
  TotalProviders : Nat
  ProviderStats : List ProvStat
  UserStats : List UserStatOut
deriving DecidableEq, Repr

/-- The comparator of the provider sort (part_001 lines 408–410):
`sort.Slice` with `less i j = count_i > count_j`, whose sorted order is
non-increasing `UserCount`. -/
def provOrder (a b : ProvStat) : Prop := b.UserCount ≤ a.UserCount

instance : DecidableRel provOrder := fun a b => Nat.decLe b.UserCount a.UserCount

instance : IsTotal ProvStat provOrder := ⟨fun a b => le_total b.UserCount a.UserCount⟩

instance : IsTrans ProvStat provOrder := ⟨fun _ _ _ h1 h2 => le_trans h2 h1⟩

/-- The comparator of the user sort (part_001 lines 433–435): ascending
username. -/
def userOrder (a b : UserStatOut) : Prop := a.Username ≤ b.Username

instance : DecidableRel userOrder := fun a b => inferInstanceAs (Decidable (a.Username ≤ b.Username))

instance : IsTotal UserStatOut userOrder := ⟨fun a b => le_total a.Username b.Username⟩

instance : IsTrans UserStatOut userOrder := ⟨fun _ _ _ h1 h2 => le_trans h1 h2⟩

/-- Model of the realm-side `createOutputData` (part_001 lines
373–438). -/
def createOutputData (res : RealmResult) : RealmOutput :=
  let provStats := res.Providers.map (fun pv => ProvStat.mk pv.1 pv.2.length pv.2)
  let userStats := res.Users.map (fun uv => UserStatOut.mk uv.1 uv.2)
  ⟨res.Users.length, res.Providers.length,
   List.insertionSort provOrder provStats,
   List.insertionSort userOrder userStats⟩

/-- One `user_details` output row (part_002 lines 102–106; the RFC3339
rendering of the timestamps is kept as the instant). -/
structure UserDetail where
  Username : String
  Realm : String
  AuthTimestamps : List Int
deriving DecidableEq, Repr

/-- One `station_stats` output row (part_002 lines 75–83, the fields the
claims mention). -/
structure StationOut where
  StationID : String
  TotalAuths : Nat
  TotalUsers : Nat
  UserDetails : List UserDetail
deriving DecidableEq, Repr

/-- One `realm_stats` output row (part_002 lines 94–99). -/
structure RealmStatOut where
  Realm : String
  TotalUsers : Nat
  TotalStations : Nat
  TotalAuths : Nat
deriving DecidableEq, Repr

/-- The SP-side output document. -/
structure SPOutput where
  UniqueStations : Nat
  UniqueUsers : Nat
  UniqueRealms : Nat
  TotalAuths : Nat
  StationStats : List StationOut
  RealmStats : List RealmStatOut
deriving DecidableEq, Repr

/-- Comparator of the station sort (part_002 lines 259–261):
`total_auths` descending. -/
def stationOrder (a b : StationOut) : Prop := b.TotalAuths ≤ a.TotalAuths

instance : DecidableRel stationOrder := fun a b => Nat.decLe b.TotalAuths a.TotalAuths

instance : IsTotal StationOut stationOrder := ⟨fun a b => le_total b.TotalAuths a.TotalAuths⟩

instance : IsTrans StationOut stationOrder := ⟨fun _ _ _ h1 h2 => le_trans h2 h1⟩

/-- Comparator of the per-station user-details sort (part_002 lines
251–253): ascending username. -/
def userDetailOrder (a b : UserDetail) : Prop := a.Username ≤ b.Username

instance : DecidableRel userDetailOrder :=
  fun a b => inferInstanceAs (Decidable (a.Username ≤ b.Username))

instance : IsTotal UserDetail userDetailOrder := ⟨fun a b => le_total a.Username b.Username⟩

instance : IsTrans UserDetail userDetailOrder := ⟨fun _ _ _ h1 h2 => le_trans h1 h2⟩

/-- Comparator of the realm-stats sort (part_002 lines 276–278):
`total_auths` descending. -/
def realmStatOrder (a b : RealmStatOut) : Prop := b.TotalAuths ≤ a.TotalAuths

instance : DecidableRel realmStatOrder := fun a b => Nat.decLe b.TotalAuths a.TotalAuths

instance : IsTotal RealmStatOut realmStatOrder := ⟨fun a b => le_total b.TotalAuths a.TotalAuths⟩

instance : IsTrans RealmStatOut realmStatOrder := ⟨fun _ _ _ h1 h2 => le_trans h2 h1⟩

/-- The `unique_users` summary count (part_002 lines 198–205): the union
of all stations' user-name sets. -/
def spUniqueUsers (res : SPResult) : Nat :=
  (res.Stations.foldl (fun acc kv => kv.2.Users.foldl (fun a uv => setInsert a uv.1) acc) []).length

/-- Model of the SP-side `createOutputData` (part_002 lines 188–281). -/
def createOutputDataSP (res : SPResult) : SPOutput :=
  let stationStats := res.Stations.map (fun kv =>
    StationOut.mk kv.1 kv.2.TotalAuths kv.2.Users.length
      (List.insertionSort userDetailOrder
        (kv.2.Users.map (fun uv => UserDetail.mk uv.1 uv.2.Realm uv.2.AuthTimestamps))))
  let realmStats := res.Realms.map (fun kv =>
    RealmStatOut.mk kv.1 kv.2.Users.length kv.2.Stations.length kv.2.TotalAuths)
  ⟨res.Stations.length, spUniqueUsers res, res.Realms.length,
   res.Stations.foldl (fun a kv => a + kv.2.TotalAuths) 0,
   List.insertionSort stationOrder stationStats,
   List.insertionSort realmStatOrder realmStats⟩

/-- `(u, p)` was observed in some bucket of the run. -/
def obsRealm (entries : List AggEntry) (u p : String) : Prop :=
  ∃ e ∈ entries, e.Username = u ∧ e.ServiceProvider = p

/-- The provider set recorded for user `u`. -/
def userProvidersOf (r : RealmResult) (u : String) : List String :=
  (slookup r.Users u).getD []

/-- The user set recorded for provider `p`. -/
def provUsersOf (r : RealmResult) (p : String) : List String :=
  (slookup r.Providers p).getD []


/-- The station set recorded for realm `rl`. -/
def spRealmStations (r : SPResult) (rl : String) : List String :=
  ((slookup r.Realms rl).getD ⟨[], [], 0⟩).Stations


/-! ### Concrete scenario inputs -/

/-- Scenario-2 test double: the fake server of spec §8, returning 413
for bodies of more than ten entries and 200 otherwise. -/
def cap10Server : List Nat → SendResult :=
  fun b => if 10 < b.length then .tooLarge else .ok

/-- A clock for `time.Now()`: 2024-10-16T00:00:00Z, the release date in
the v1.5.5 header. -/
def nowOct2024 : GoNow := ⟨2024, 1729036800⟩

/-- An Access-Accept line whose `user` marker is the final token. -/
def lineMarkerAtEnd : String := "2024-10-14T00:00:02Z relay1 radiusd Access-Accept for user"

/-- A legacy-format line with exactly five tokens. -/
def lineShortOld : String := "Dec 31 00:16:27 host-a radiusd"

/-- The scenario-1 line of spec §8 (ISO timestamp without a zone). -/
def scenario1Line : String :=
  "2024-10-14T00:00:02 host-a radiusd[123]: Access-Accept for user alice@ku.ac.th stationid AA-BB-CC-DD-EE-FF from eduroam.ku.ac.th to eduroam.example.ac.th (10.0.0.1)"

/-- The same line with an explicit `Z` zone suffix on the timestamp. -/
def scenario1LineZoned : String :=
  "2024-10-14T00:00:02Z host-a radiusd[123]: Access-Accept for user alice@ku.ac.th stationid AA-BB-CC-DD-EE-FF from eduroam.ku.ac.th to eduroam.example.ac.th (10.0.0.1)"


/-! C6 inputs: station AA has one user with five authentications,
station BB has two users with one authentication each.  The comparator
`total_auths` descending puts AA first in every comparator-sorted
permutation (5 > 2 strictly), independently of Go's randomised map
iteration order, while descending user count would demand BB first. -/

def exSPEntries : List SPAggEntry :=
  [⟨"u1", "r1", "AA", 1⟩, ⟨"u1", "r1", "AA", 2⟩, ⟨"u1", "r1", "AA", 3⟩,
   ⟨"u1", "r1", "AA", 4⟩, ⟨"u1", "r1", "AA", 5⟩,
   ⟨"u2", "r1", "BB", 1⟩, ⟨"u3", "r1", "BB", 2⟩]


/-- A one-station result used to witness the per-station sort. -/
def resWitnessSP : SPResult := ⟨[("S1", ⟨1, [("u1", ⟨"r1", [3]⟩)]⟩)], []⟩


/-! C7 inputs. -/

/-- A response whose only user bucket is a map without a `key` field. -/
def respMissingKeyBucket : List (String × JVal) :=
  [("aggregations", JVal.jobj [("unique_users",
    JVal.jobj [("buckets", JVal.jarr [JVal.jobj []])])])]

/-- A response whose only user bucket has a `key` but no `doc_count`. -/
def respKeyNoDocCount : List (String × JVal) :=
  [("aggregations", JVal.jobj [("unique_users",
    JVal.jobj [("buckets", JVal.jarr [JVal.jobj [("key", JVal.jstr "alice")]])])])]

/-- A response whose only user bucket is not a map. -/
def respNonMapBucket : List (String × JVal) :=
  [("aggregations", JVal.jobj [("unique_users",
    JVal.jobj [("buckets", JVal.jarr [JVal.jstr "x"])])])]

/-- A well-formed response: one user, one provider, one empty and one
non-empty daily histogram bucket. -/
def respWellFormed : List (String × JVal) :=
  [("aggregations", JVal.jobj [("unique_users", JVal.jobj [("buckets", JVal.jarr [
    JVal.jobj [("key", JVal.jstr "alice"), ("doc_count", JVal.jnum 2),
      ("providers", JVal.jobj [("buckets",
        JVal.jarr [JVal.jobj [("key", JVal.jstr "sp1")]])]),
      ("daily", JVal.jobj [("buckets", JVal.jarr [
        JVal.jobj [("doc_count", JVal.jnum 0), ("key", JVal.jnum 1728864000000)],
        JVal.jobj [("doc_count", JVal.jnum 2), ("key", JVal.jnum 1728950400000)]])])]])])])]

/-- SP-side: a non-map station bucket. -/
def respSPNonMapBucket : List (String × JVal) :=
  [("aggregations", JVal.jobj [("by_station",
    JVal.jobj [("buckets", JVal.jarr [JVal.jnum 3])])])]

/-- SP-side: a map station bucket without a `key`. -/
def respSPMissingKeyBucket : List (String × JVal) :=
  [("aggregations", JVal.jobj [("by_station",
    JVal.jobj [("buckets", JVal.jarr [JVal.jobj []])])])]


/-! ### Association-map lemmas -/

theorem mem_setInsert {xs : List String} {x y : String} :
    y ∈ setInsert xs x ↔ y ∈ xs ∨ y = x := by
  unfold setInsert
  split
  · constructor
    · exact fun h => Or.inl h
    · rintro (h | rfl)
      · exact h
      · assumption
  · simp [List.mem_append]

theorem slookup_supdate {α : Type} (m : List (String × α)) (k : String)
    (f : Option α → α) (k' : String) :
    slookup (supdate m k f) k' =
      if k' = k then some (f (slookup m k)) else slookup m k' := by
  induction m with
  | nil =>
    by_cases h : k' = k
    · subst h; simp [supdate, slookup]
    · simp [supdate, slookup, h, Ne.symm h]
  | cons a rest ih =>
    obtain ⟨ka, va⟩ := a
    by_cases hak : ka = k
    · subst hak
      by_cases hk' : k' = ka
      · subst hk'; simp [supdate, slookup]
      · simp [supdate, slookup, hk', Ne.symm hk']
    · by_cases hk' : k' = k
      · subst hk'
        simp [supdate, slookup, hak, ih]
      · by_cases hka' : ka = k'
        · subst hka'
          simp [supdate, slookup, hak, hk', ih]
        · simp [supdate, slookup, hak, hk', hka', ih]

theorem keys_supdate {α : Type} (m : List (String × α)) (k : String) (f : Option α → α) :
    (supdate m k f).map Prod.fst =
      if (slookup m k).isSome then m.map Prod.fst else m.map Prod.fst ++ [k] := by
  induction m with
  | nil => simp [supdate, slookup]
  | cons a rest ih =>
    obtain ⟨ka, va⟩ := a
    by_cases hak : ka = k
    · subst hak; simp [supdate, slookup]
    · simp only [supdate, slookup, if_neg hak, List.map_cons, ih]
      split <;> simp

theorem slookup_isSome_iff_mem_keys {α : Type} (m : List (String × α)) (k : String) :
    (slookup m k).isSome ↔ k ∈ m.map Prod.fst := by
  induction m with
  | nil => simp [slookup]
  | cons a rest ih =>
    obtain ⟨ka, va⟩ := a
    simp only [slookup, List.map_cons, List.mem_cons]
    by_cases hak : ka = k
    · subst hak; simp
    · rw [if_neg hak, ih]
      constructor
      · exact fun h => Or.inr h
      · rintro (h | h)
        · exact absurd h.symm hak
        · exact h

theorem keysNodup_supdate {α : Type} (m : List (String × α)) (k : String)
    (f : Option α → α) (h : (m.map Prod.fst).Nodup) :
    ((supdate m k f).map Prod.fst).Nodup := by
  rw [keys_supdate]
  split
  · exact h
  · next hns =>
    refine List.Nodup.append h (List.nodup_singleton k) ?_
    intro x hx hx1
    rcases List.mem_singleton.mp hx1 with rfl
    exact hns ((slookup_isSome_iff_mem_keys m x).mpr hx)

theorem slookup_of_mem {α : Type} {m : List (String × α)} {k : String} {v : α}
    (hnd : (m.map Prod.fst).Nodup) (h : (k, v) ∈ m) : slookup m k = some v := by
  induction m with
  | nil => cases h
  | cons a rest ih =>
    obtain ⟨ka, va⟩ := a
    simp only [List.map_cons, List.nodup_cons] at hnd
    rcases List.mem_cons.mp h with heq | hmem
    · cases heq; simp [slookup]
    · have hk : ka ≠ k := by
        intro hkk
        subst hkk
        exact hnd.1 (List.mem_map.mpr ⟨(ka, v), hmem, rfl⟩)
      simp only [slookup, if_neg hk]
      exact ih hnd.2 hmem

theorem mem_of_slookup {α : Type} {m : List (String × α)} {k : String} {v : α}
    (h : slookup m k = some v) : (k, v) ∈ m := by
  induction m with
  | nil => simp [slookup] at h
  | cons a rest ih =>
    obtain ⟨ka, va⟩ := a
    simp only [slookup] at h
    by_cases hak : ka = k
    · subst hak
      rw [if_pos rfl] at h
      cases h
      exact List.mem_cons_self _ _
    · rw [if_neg hak] at h
      exact List.mem_cons_of_mem _ (ih h)

/-- Key presence is preserved by a value-only map. -/
theorem slookup_isSome_map {α β : Type} (m : List (String × α))
    (g : String × α → β) (k : String) :
    (slookup (m.map (fun kv => (kv.1, g kv))) k).isSome = (slookup m k).isSome := by
  induction m with
  | nil => simp [slookup]
  | cons a rest ih =>
    obtain ⟨ka, va⟩ := a
    simp only [List.map_cons, slookup]
    by_cases hak : ka = k
    · subst hak; simp
    · rw [if_neg hak, if_neg hak, ih]

/-! ### Realm-side merge characterisation -/

theorem mem_addObserved {m : List (String × List String)} {u0 p0 u p : String} :
    p ∈ (slookup (addObserved m u0 p0) u).getD [] ↔
      p ∈ (slookup m u).getD [] ∨ (u = u0 ∧ p = p0) := by
  unfold addObserved
  rw [slookup_supdate]
  by_cases hu : u = u0
  · subst hu
    rw [if_pos rfl]
    simp [mem_setInsert]
  · rw [if_neg hu]
    constructor
    · exact fun h => Or.inl h
    · rintro (h | ⟨rfl, _⟩)
      · exact h
      · exact absurd rfl hu

theorem isSome_addObserved {m : List (String × List String)} {u0 p0 u : String} :
    (slookup (addObserved m u0 p0) u).isSome ↔ (slookup m u).isSome ∨ u = u0 := by
  unfold addObserved
  rw [slookup_supdate]
  by_cases hu : u = u0
  · subst hu; simp
  · rw [if_neg hu]
    constructor
    · exact fun h => Or.inl h
    · rintro (h | rfl)
      · exact h
      · exact absurd rfl hu

theorem mem_buildUserMap (entries : List AggEntry) :
    ∀ (m : List (String × List String)) (u p : String),
      p ∈ (slookup (buildUserMap m entries) u).getD [] ↔
        p ∈ (slookup m u).getD [] ∨ obsRealm entries u p := by
  induction entries with
  | nil => simp [buildUserMap, obsRealm]
  | cons e rest ih =>
    intro m u p
    simp only [buildUserMap, List.foldl_cons] at *
    rw [ih (addObserved m e.Username e.ServiceProvider) u p]
    rw [mem_addObserved]
    unfold obsRealm
    constructor
    · rintro ((h | ⟨rfl, rfl⟩) | ⟨e', he', hu, hp⟩)
      · exact Or.inl h
      · exact Or.inr ⟨e, List.mem_cons_self _ _, rfl, rfl⟩
      · exact Or.inr ⟨e', List.mem_cons_of_mem _ he', hu, hp⟩
    · rintro (h | ⟨e', he', hu, hp⟩)
      · exact Or.inl (Or.inl h)
      · rcases List.mem_cons.mp he' with rfl | hmem
        · exact Or.inl (Or.inr ⟨hu.symm, hp.symm⟩)
        · exact Or.inr ⟨e', hmem, hu, hp⟩

theorem isSome_buildUserMap (entries : List AggEntry) :
    ∀ (m : List (String × List String)) (u : String),
      (slookup (buildUserMap m entries) u).isSome ↔
        (slookup m u).isSome ∨ ∃ e ∈ entries, e.Username = u := by
  induction entries with
  | nil => simp [buildUserMap]
  | cons e rest ih =>
    intro m u
    simp only [buildUserMap, List.foldl_cons] at *
    rw [ih (addObserved m e.Username e.ServiceProvider) u, isSome_addObserved]
    constructor
    · rintro ((h | rfl) | ⟨e', he', hu⟩)
      · exact Or.inl h
      · exact Or.inr ⟨e, List.mem_cons_self _ _, rfl⟩
      · exact Or.inr ⟨e', List.mem_cons_of_mem _ he', hu⟩
    · rintro (h | ⟨e', he', hu⟩)
      · exact Or.inl (Or.inl h)
      · rcases List.mem_cons.mp he' with rfl | hmem
        · exact Or.inl (Or.inr hu.symm)
        · exact Or.inr ⟨e', hmem, hu⟩

theorem keysNodup_buildUserMap (entries : List AggEntry) :
    ∀ (m : List (String × List String)), (m.map Prod.fst).Nodup →
      ((buildUserMap m entries).map Prod.fst).Nodup := by
  induction entries with
  | nil => intro m h; simpa [buildUserMap] using h
  | cons e rest ih =>
    intro m h
    simp only [buildUserMap, List.foldl_cons] at *
    exact ih _ (keysNodup_supdate _ _ _ h)

theorem mem_mergeProv_users {r : RealmResult} {u0 q u p : String} :
    p ∈ userProvidersOf (mergeProv r u0 q) u ↔
      p ∈ userProvidersOf r u ∨ (u = u0 ∧ p = q) := by
  unfold mergeProv userProvidersOf
  simp only
  rw [slookup_supdate]
  by_cases hu : u = u0
  · subst hu
    rw [if_pos rfl]
    simp [mem_setInsert]
  · rw [if_neg hu]
    constructor
    · exact fun h => Or.inl h
    · rintro (h | ⟨rfl, _⟩)
      · exact h
      · exact absurd rfl hu

theorem mem_mergeProv_provs {r : RealmResult} {u0 q pp u : String} :
    u ∈ provUsersOf (mergeProv r u0 q) pp ↔
      u ∈ provUsersOf r pp ∨ (pp = q ∧ u = u0) := by
  unfold mergeProv provUsersOf
  simp only
  rw [slookup_supdate]
  by_cases hp : pp = q
  · subst hp
    rw [if_pos rfl]
    simp [mem_setInsert]
  · rw [if_neg hp]
    constructor
    · exact fun h => Or.inl h
    · rintro (h | ⟨rfl, _⟩)
      · exact h
      · exact absurd rfl hp

theorem isSome_mergeProv_users {r : RealmResult} {u0 q u : String} :
    (slookup (mergeProv r u0 q).Users u).isSome ↔
      (slookup r.Users u).isSome ∨ u = u0 := by
  unfold mergeProv
  simp only
  rw [slookup_supdate]
  by_cases hu : u = u0
  · subst hu; simp
  · rw [if_neg hu]
    constructor
    · exact fun h => Or.inl h
    · rintro (h | rfl)
      · exact h
      · exact absurd rfl hu

theorem mem_mergeProvs_users (u0 : String) (ps : List String) :
    ∀ (r : RealmResult) (u p : String),
      p ∈ userProvidersOf (ps.foldl (fun acc q => mergeProv acc u0 q) r) u ↔
        p ∈ userProvidersOf r u ∨ (u = u0 ∧ p ∈ ps) := by
  induction ps with
  | nil => simp
  | cons q rest ih =>
    intro r u p
    simp only [List.foldl_cons]
    rw [ih (mergeProv r u0 q) u p, mem_mergeProv_users]
    constructor
    · rintro ((h | ⟨rfl, rfl⟩) | ⟨rfl, hp⟩)
      · exact Or.inl h
      · exact Or.inr ⟨rfl, List.mem_cons_self _ _⟩
      · exact Or.inr ⟨rfl, List.mem_cons_of_mem _ hp⟩
    · rintro (h | ⟨rfl, hp⟩)
      · exact Or.inl (Or.inl h)
      · rcases List.mem_cons.mp hp with rfl | hmem
        · exact Or.inl (Or.inr ⟨rfl, rfl⟩)
        · exact Or.inr ⟨rfl, hmem⟩

theorem mem_mergeProvs_provs (u0 : String) (ps : List String) :
    ∀ (r : RealmResult) (pp u : String),
      u ∈ provUsersOf (ps.foldl (fun acc q => mergeProv acc u0 q) r) pp ↔
        u ∈ provUsersOf r pp ∨ (u = u0 ∧ pp ∈ ps) := by
  induction ps with
  | nil => simp
  | cons q rest ih =>
    intro r pp u
    simp only [List.foldl_cons]
    rw [ih (mergeProv r u0 q) pp u, mem_mergeProv_provs]
    constructor
    · rintro ((h | ⟨rfl, rfl⟩) | ⟨rfl, hp⟩)
      · exact Or.inl h
      · exact Or.inr ⟨rfl, List.mem_cons_self _ _⟩
      · exact Or.inr ⟨rfl, List.mem_cons_of_mem _ hp⟩
    · rintro (h | ⟨rfl, hp⟩)
      · exact Or.inl (Or.inl h)
      · rcases List.mem_cons.mp hp with rfl | hmem
        · exact Or.inl (Or.inr ⟨rfl, rfl⟩)
        · exact Or.inr ⟨rfl, hmem⟩

theorem isSome_mergeProvs_users (u0 : String) (ps : List String) :
    ∀ (r : RealmResult) (u : String),
      (slookup (ps.foldl (fun acc q => mergeProv acc u0 q) r).Users u).isSome ↔
        (slookup r.Users u).isSome ∨ (u = u0 ∧ ps ≠ []) := by
  induction ps with
  | nil => simp
  | cons q rest ih =>
    intro r u
    simp only [List.foldl_cons]
    rw [ih (mergeProv r u0 q) u, isSome_mergeProv_users]
    constructor
    · rintro ((h | rfl) | ⟨rfl, _⟩)
      · exact Or.inl h
      · exact Or.inr ⟨rfl, List.cons_ne_nil _ _⟩
      · exact Or.inr ⟨rfl, List.cons_ne_nil _ _⟩
    · rintro (h | ⟨rfl, _⟩)
      · exact Or.inl (Or.inl h)
      · exact Or.inl (Or.inr rfl)

/-- The initial "ensure key" store does not change any provider set. -/
theorem mem_ensureUser {m : List (String × List String)} {u0 u p : String} :
    p ∈ (slookup (supdate m u0 (fun o => o.getD [])) u).getD [] ↔
      p ∈ (slookup m u).getD [] := by
  rw [slookup_supdate]
  by_cases hu : u = u0
  · subst hu
    rw [if_pos rfl]
    cases h : slookup m u <;> simp [h]
  · rw [if_neg hu]

theorem mem_mergeUser_users {r : RealmResult} {u0 u p : String} {ps : List String} :
    p ∈ userProvidersOf (mergeUser r u0 ps) u ↔
      p ∈ userProvidersOf r u ∨ (u = u0 ∧ p ∈ ps) := by
  unfold mergeUser
  rw [mem_mergeProvs_users]
  unfold userProvidersOf
  simp only
  rw [mem_ensureUser]

theorem mem_mergeUser_provs {r : RealmResult} {u0 pp u : String} {ps : List String} :
    u ∈ provUsersOf (mergeUser r u0 ps) pp ↔
      u ∈ provUsersOf r pp ∨ (u = u0 ∧ pp ∈ ps) := by
  unfold mergeUser
  rw [mem_mergeProvs_provs]
  exact Iff.rfl

theorem isSome_mergeUser_users {r : RealmResult} {u0 u : String} {ps : List String} :
    (slookup (mergeUser r u0 ps).Users u).isSome ↔
      (slookup r.Users u).isSome ∨ u = u0 := by
  unfold mergeUser
  rw [isSome_mergeProvs_users]
  simp only
  rw [slookup_supdate]
  by_cases hu : u = u0
  · subst hu; simp
  · rw [if_neg hu]
    constructor
    · rintro (h | ⟨rfl, _⟩)
      · exact Or.inl h
      · exact absurd rfl hu
    · rintro (h | rfl)
      · exact Or.inl h
      · exact absurd rfl hu

theorem mem_mergeAll_users (L : List (String × List String)) :
    ∀ (r : RealmResult) (u p : String),
      p ∈ userProvidersOf (mergeAll r L) u ↔
        p ∈ userProvidersOf r u ∨ ∃ ps, (u, ps) ∈ L ∧ p ∈ ps := by
  induction L with
  | nil => simp [mergeAll]
  | cons kv rest ih =>
    intro r u p
    obtain ⟨u0, ps0⟩ := kv
    simp only [mergeAll, List.foldl_cons] at *
    rw [ih (mergeUser r u0 ps0) u p, mem_mergeUser_users]
    constructor
    · rintro ((h | ⟨rfl, hp⟩) | ⟨ps, hmem, hp⟩)
      · exact Or.inl h
      · exact Or.inr ⟨ps0, List.mem_cons_self _ _, hp⟩
      · exact Or.inr ⟨ps, List.mem_cons_of_mem _ hmem, hp⟩
    · rintro (h | ⟨ps, hmem, hp⟩)
      · exact Or.inl (Or.inl h)
      · rcases List.mem_cons.mp hmem with heq | hmem'
        · cases heq
          exact Or.inl (Or.inr ⟨rfl, hp⟩)
        · exact Or.inr ⟨ps, hmem', hp⟩

theorem mem_mergeAll_provs (L : List (String × List String)) :
    ∀ (r : RealmResult) (pp u : String),
      u ∈ provUsersOf (mergeAll r L) pp ↔
        u ∈ provUsersOf r pp ∨ ∃ ps, (u, ps) ∈ L ∧ pp ∈ ps := by
  induction L with
  | nil => simp [mergeAll]
  | cons kv rest ih =>
    intro r pp u
    obtain ⟨u0, ps0⟩ := kv
    simp only [mergeAll, List.foldl_cons] at *
    rw [ih (mergeUser r u0 ps0) pp u, mem_mergeUser_provs]
    constructor
    · rintro ((h | ⟨rfl, hp⟩) | ⟨ps, hmem, hp⟩)
      · exact Or.inl h
      · exact Or.inr ⟨ps0, List.mem_cons_self _ _, hp⟩
      · exact Or.inr ⟨ps, List.mem_cons_of_mem _ hmem, hp⟩
    · rintro (h | ⟨ps, hmem, hp⟩)
      · exact Or.inl (Or.inl h)
      · rcases List.mem_cons.mp hmem with heq | hmem'
        · cases heq
          exact Or.inl (Or.inr ⟨rfl, hp⟩)
        · exact Or.inr ⟨ps, hmem', hp⟩

theorem isSome_mergeAll_users (L : List (String × List String)) :
    ∀ (r : RealmResult) (u : String),
      (slookup (mergeAll r L).Users u).isSome ↔
        (slookup r.Users u).isSome ∨ ∃ ps, (u, ps) ∈ L := by
  induction L with
  | nil => simp [mergeAll]
  | cons kv rest ih =>
    intro r u
    obtain ⟨u0, ps0⟩ := kv
    simp only [mergeAll, List.foldl_cons] at *
    rw [ih (mergeUser r u0 ps0) u, isSome_mergeUser_users]
    constructor
    · rintro ((h | rfl) | ⟨ps, hmem⟩)
      · exact Or.inl h
      · exact Or.inr ⟨ps0, List.mem_cons_self _ _⟩
      · exact Or.inr ⟨ps, List.mem_cons_of_mem _ hmem⟩
    · rintro (h | ⟨ps, hmem⟩)
      · exact Or.inl (Or.inl h)
      · rcases List.mem_cons.mp hmem with heq | hmem'
        · cases heq
          exact Or.inl (Or.inr rfl)
        · exact Or.inr ⟨ps, hmem'⟩

/-- Pair membership in `userMap` is exactly observation, through the
duplicate-free key structure `supdate` maintains. -/
theorem pairMem_buildUserMap {entries : List AggEntry} {u p : String} :
    (∃ ps, (u, ps) ∈ buildUserMap [] entries ∧ p ∈ ps) ↔ obsRealm entries u p := by
  have hnd : ((buildUserMap [] entries).map Prod.fst).Nodup :=
    keysNodup_buildUserMap entries [] (by simp)
  constructor
  · rintro ⟨ps, hmem, hp⟩
    have hl := slookup_of_mem hnd hmem
    have := (mem_buildUserMap entries [] u p).mp (by rw [hl]; simpa using hp)
    rcases this with h | h
    · simp [slookup] at h
    · exact h
  · intro h
    have hm := (mem_buildUserMap entries [] u p).mpr (Or.inr h)
    cases hl : slookup (buildUserMap [] entries) u with
    | none => rw [hl] at hm; simp at hm
    | some ps =>
      rw [hl] at hm
      exact ⟨ps, mem_of_slookup hl, by simpa using hm⟩

theorem keyMem_buildUserMap {entries : List AggEntry} {u : String} :
    (∃ ps, (u, ps) ∈ buildUserMap [] entries) ↔ ∃ e ∈ entries, e.Username = u := by
  constructor
  · rintro ⟨ps, hmem⟩
    have hnd : ((buildUserMap [] entries).map Prod.fst).Nodup :=
      keysNodup_buildUserMap entries [] (by simp)
    have hl := slookup_of_mem hnd hmem
    have := (isSome_buildUserMap entries [] u).mp (by rw [hl]; rfl)
    rcases this with h | h
    · simp [slookup] at h
    · exact h
  · intro h
    have := (isSome_buildUserMap entries [] u).mpr (Or.inr h)
    cases hl : slookup (buildUserMap [] entries) u with
    | none => rw [hl] at this; simp at this
    | some ps => exact ⟨ps, mem_of_slookup hl⟩

/-- Users-side characterisation of the realm merge: recorded providers
are exactly the observed pairs. -/
theorem processResults_users_mem (entries : List AggEntry) (u p : String) :
    p ∈ userProvidersOf (processResults entries) u ↔ obsRealm entries u p := by
  unfold processResults
  rw [mem_mergeAll_users]
  simp only [userProvidersOf, slookup, Option.getD_none, List.not_mem_nil, false_or]
  exact pairMem_buildUserMap

/-- Providers-side characterisation of the realm merge. -/
theorem processResults_provs_mem (entries : List AggEntry) (p u : String) :
    u ∈ provUsersOf (processResults entries) p ↔ obsRealm entries u p := by
  unfold processResults
  rw [mem_mergeAll_provs]
  simp only [provUsersOf, slookup, Option.getD_none, List.not_mem_nil, false_or]
  exact pairMem_buildUserMap

/-- Key-presence characterisation of the realm merge. -/
theorem processResults_users_key (entries : List AggEntry) (u : String) :
    (slookup (processResults entries).Users u).isSome ↔ ∃ e ∈ entries, e.Username = u := by
  unfold processResults
  rw [isSome_mergeAll_users]
  simp only [slookup, Option.isSome_none, Bool.false_eq_true, false_or]
  exact keyMem_buildUserMap

/-! ### SP-side merge characterisation -/

theorem mem_spStep_stations {r : SPResult} {e : SPAggEntry} {rl s : String} :
    s ∈ spRealmStations (spStep r e) rl ↔
      s ∈ spRealmStations r rl ∨ (rl = e.Realm ∧ s = e.StationID) := by
  unfold spStep spRealmStations
  simp only
  rw [slookup_supdate]
  by_cases hr : rl = e.Realm
  · subst hr
    rw [if_pos rfl]
    simp [mem_setInsert]
  · rw [if_neg hr]
    constructor
    · exact fun h => Or.inl h
    · rintro (h | ⟨rfl, _⟩)
      · exact h
      · exact absurd rfl hr

theorem isSome_spStep_stations {r : SPResult} {e : SPAggEntry} {s : String} :
    (slookup (spStep r e).Stations s).isSome ↔
      (slookup r.Stations s).isSome ∨ s = e.StationID := by
  unfold spStep
  simp only
  rw [slookup_supdate]
  by_cases hs : s = e.StationID
  · subst hs; simp
  · rw [if_neg hs]
    constructor
    · exact fun h => Or.inl h
    · rintro (h | rfl)
      · exact h
      · exact absurd rfl hs

theorem mem_spFold_stations (entries : List SPAggEntry) :
    ∀ (r : SPResult) (rl s : String),
      s ∈ spRealmStations (entries.foldl spStep r) rl ↔
        s ∈ spRealmStations r rl ∨ ∃ e ∈ entries, e.Realm = rl ∧ e.StationID = s := by
  induction entries with
  | nil => simp
  | cons e rest ih =>
    intro r rl s
    simp only [List.foldl_cons]
    rw [ih (spStep r e) rl s, mem_spStep_stations]
    constructor
    · rintro ((h | ⟨rfl, rfl⟩) | ⟨e', he', hr, hs⟩)
      · exact Or.inl h
      · exact Or.inr ⟨e, List.mem_cons_self _ _, rfl, rfl⟩
      · exact Or.inr ⟨e', List.mem_cons_of_mem _ he', hr, hs⟩
    · rintro (h | ⟨e', he', hr, hs⟩)
      · exact Or.inl (Or.inl h)
      · rcases List.mem_cons.mp he' with rfl | hmem
        · exact Or.inl (Or.inr ⟨hr.symm, hs.symm⟩)
        · exact Or.inr ⟨e', hmem, hr, hs⟩

theorem isSome_spFold_stations (entries : List SPAggEntry) :
    ∀ (r : SPResult) (s : String),
      (slookup (entries.foldl spStep r).Stations s).isSome ↔
        (slookup r.Stations s).isSome ∨ ∃ e ∈ entries, e.StationID = s := by
  induction entries with
  | nil => simp
  | cons e rest ih =>
    intro r s
    simp only [List.foldl_cons]
    rw [ih (spStep r e) s, isSome_spStep_stations]
    constructor
    · rintro ((h | rfl) | ⟨e', he', hs⟩)
      · exact Or.inl h
      · exact Or.inr ⟨e, List.mem_cons_self _ _, rfl⟩
      · exact Or.inr ⟨e', List.mem_cons_of_mem _ he', hs⟩
    · rintro (h | ⟨e', he', hs⟩)
      · exact Or.inl (Or.inl h)
      · rcases List.mem_cons.mp he' with rfl | hmem
        · exact Or.inl (Or.inr hs.symm)
        · exact Or.inr ⟨e', hmem, hs⟩

/-- The timestamp-sorting pass keeps the realm map and all station keys. -/
theorem spRealmStations_sort (r : SPResult) (rl : String) :
    spRealmStations (sortStationTimestamps r) rl = spRealmStations r rl := rfl

theorem isSome_sortStationTimestamps (r : SPResult) (s : String) :
    (slookup (sortStationTimestamps r).Stations s).isSome =
      (slookup r.Stations s).isSome := by
  unfold sortStationTimestamps
  exact slookup_isSome_map r.Stations _ s

/-- Realm-to-station characterisation of the SP merge. -/
theorem processResultsSP_realmStations (entries : List SPAggEntry) (rl s : String) :
    s ∈ spRealmStations (processResultsSP entries) rl ↔
      ∃ e ∈ entries, e.Realm = rl ∧ e.StationID = s := by
  unfold processResultsSP
  rw [spRealmStations_sort, mem_spFold_stations]
  simp [spRealmStations, slookup]

/-- Station-key characterisation of the SP merge. -/
theorem processResultsSP_stationsKey (entries : List SPAggEntry) (s : String) :
    (slookup (processResultsSP entries).Stations s).isSome ↔
      ∃ e ∈ entries, e.StationID = s := by
  unfold processResultsSP
  rw [isSome_sortStationTimestamps, isSome_spFold_stations]
  simp [slookup]

/-! ### Closed form of the job enumeration -/

theorem jobsLoop_stop {fuel endNs cur : Nat} (h : ¬ cur < endNs) :
    jobsLoop fuel endNs cur = [] := by
  cases fuel <;> simp [jobsLoop, h]

theorem dayNs_val : dayNs = 86400000000000 := rfl

theorem nsPerSec_val : nsPerSec = 1000000000 := rfl

theorem endNsOfDay_val (d : Nat) : endNsOfDay d = (d + 1) * 86400000000000 - 1 := by
  unfold endNsOfDay
  rw [dayNs_val]

theorem jobsLoop_eq_mkJobs :
    ∀ (n k dE fuel : Nat), dE + 1 - k = n → n ≤ fuel →
      jobsLoop fuel (endNsOfDay dE) (k * dayNs) = mkJobs k dE := by
  intro n
  induction n with
  | zero =>
    intro k dE fuel hn _
    have hk : dE + 1 ≤ k := by omega
    have hstop : ¬ k * dayNs < endNsOfDay dE := by
      rw [dayNs_val, endNsOfDay_val]
      have h1 : (dE + 1) * 86400000000000 ≤ k * 86400000000000 :=
        Nat.mul_le_mul_right _ hk
      omega
    rw [jobsLoop_stop hstop]
    unfold mkJobs
    rw [hn]
    rfl
  | succ m ih =>
    intro k dE fuel hn hfuel
    have hk : k ≤ dE := by omega
    obtain ⟨f, rfl⟩ : ∃ f, fuel = f + 1 := ⟨fuel - 1, by omega⟩
    have hkk : k * 86400000000000 ≤ dE * 86400000000000 := Nat.mul_le_mul_right _ hk
    have hcond : k * dayNs < endNsOfDay dE := by
      rw [dayNs_val, endNsOfDay_val]
      omega
    have hdiv : ∀ a : Nat, a * dayNs / nsPerSec = a * 86400 := by
      intro a
      have h : a * dayNs = a * 86400 * nsPerSec := by rw [dayNs_val, nsPerSec_val]; ring
      rw [h, Nat.mul_div_cancel _ (by rw [nsPerSec_val]; omega)]
    have hmk : mkJobs k dE =
        jobSpec dE k 0 :: (List.range m).map (fun i => jobSpec dE k (i + 1)) := by
      unfold mkJobs
      rw [hn, List.range_succ_eq_map, List.map_cons, List.map_map]
      rfl
    show jobsLoop (f + 1) (endNsOfDay dE) (k * dayNs) = mkJobs k dE
    unfold jobsLoop
    rw [if_pos hcond]
    rcases Nat.lt_or_ge k dE with hlt | hge
    · have hk1 : (k + 1) * 86400000000000 ≤ dE * 86400000000000 :=
        Nat.mul_le_mul_right _ (by omega)
      have hmin : min (k * dayNs + dayNs) (endNsOfDay dE) = (k + 1) * dayNs := by
        rw [dayNs_val, endNsOfDay_val]
        omega
      rw [hmin, hdiv, hdiv, ih (k + 1) dE f (by omega) (by omega)]
      rw [hmk]
      have hhead : jobSpec dE k 0 = Job.mk (k * 86400) ((k + 1) * 86400) := by
        unfold jobSpec
        have hmin2 : min ((k + 0 + 1) * 86400) (dE * 86400 + 86399) = (k + 1) * 86400 := by
          have : (k + 1) * 86400 ≤ dE * 86400 := Nat.mul_le_mul_right _ (by omega)
          omega
        rw [hmin2]
        simp [Job.mk.injEq]
      have htail : (List.range m).map (fun i => jobSpec dE k (i + 1)) = mkJobs (k + 1) dE := by
        unfold mkJobs
        have hr : dE + 1 - (k + 1) = m := by omega
        rw [hr]
        refine List.map_congr_left ?_
        intro i _
        unfold jobSpec
        have h1 : k + (i + 1) = k + 1 + i := by omega
        rw [h1]
      rw [hhead, htail]
    · have hke : k = dE := by omega
      subst hke
      have hm0 : m = 0 := by omega
      subst hm0
      have hmin : min (k * dayNs + dayNs) (endNsOfDay k) = endNsOfDay k := by
        rw [dayNs_val, endNsOfDay_val]
        omega
      rw [hmin, hdiv, jobsLoop_stop (lt_irrefl _)]
      have hend : endNsOfDay k / nsPerSec = k * 86400 + 86399 := by
        rw [endNsOfDay_val, nsPerSec_val]
        omega
      rw [hend, hmk]
      simp only [List.range_zero, List.map_nil]
      have hlast : jobSpec k k 0 = Job.mk (k * 86400) (k * 86400 + 86399) := by
        unfold jobSpec
        have hmin2 : min ((k + 0 + 1) * 86400) (k * 86400 + 86399) = k * 86400 + 86399 := by
          omega
        rw [hmin2]
        simp [Job.mk.injEq]
      rw [hlast]

/-- The drivers' loop equals the closed form for every day range. -/
theorem enumerateJobs_eq_mkJobs (dS dE : Nat) : enumerateJobs dS dE = mkJobs dS dE :=
  jobsLoop_eq_mkJobs (dE + 1 - dS) dS dE (dE + 2 - dS) rfl (by omega)

theorem mkJobs_width_pos {k dE : Nat} {j : Job} (hj : j ∈ mkJobs k dE) :
    j.StartTimestamp < j.EndTimestamp := by
  unfold mkJobs at hj
  rcases List.mem_map.mp hj with ⟨i, hi, rfl⟩
  have hib : k + i ≤ dE := by
    have := List.mem_range.mp hi
    omega
  have h2 : (k + i) * 86400 ≤ dE * 86400 := Nat.mul_le_mul_right _ hib
  have h3 : (k + i) * 86400 < (k + i + 1) * 86400 := by omega
  unfold jobSpec
  simp only
  omega

theorem mkJobs_chained (k dE : Nat) :
    (mkJobs k dE).Pairwise (fun a b => a.EndTimestamp ≤ b.StartTimestamp) := by
  unfold mkJobs
  rw [List.pairwise_map]
  refine (List.pairwise_lt_range _).imp ?_
  intro i j hij
  unfold jobSpec
  simp only
  have h1 : (k + i + 1) * 86400 ≤ (k + j) * 86400 := Nat.mul_le_mul_right _ (by omega)
  omega

theorem mkJobs_union (k dE : Nat) (t : Nat) :
    (∃ j ∈ mkJobs k dE, jobContains j t) ↔
      k * 86400 ≤ t ∧ t < dE * 86400 + 86399 := by
  constructor
  · rintro ⟨j, hj, hc⟩
    unfold mkJobs at hj
    rcases List.mem_map.mp hj with ⟨i, hi, rfl⟩
    have hib : k + i ≤ dE := by
      have := List.mem_range.mp hi
      omega
    obtain ⟨hc1, hc2⟩ := hc
    unfold jobSpec at hc1 hc2
    simp only at hc1 hc2
    have h2 : k * 86400 ≤ (k + i) * 86400 := Nat.mul_le_mul_right _ (by omega)
    omega
  · rintro ⟨h1, h2⟩
    have hq1 : k ≤ t / 86400 := (Nat.le_div_iff_mul_le (by omega)).mpr h1
    have hq2 : t / 86400 ≤ dE := by
      have hlt : t < 86400 * (dE + 1) := by omega
      have := Nat.div_lt_of_lt_mul hlt
      omega
    have hmod := Nat.div_add_mod t 86400
    have hmlt : t % 86400 < 86400 := Nat.mod_lt _ (by omega)
    refine ⟨jobSpec dE k (t / 86400 - k), ?_, ?_, ?_⟩
    · exact List.mem_map.mpr ⟨t / 86400 - k, List.mem_range.mpr (by omega), rfl⟩
    · unfold jobSpec
      simp only
      have he : k + (t / 86400 - k) = t / 86400 := by omega
      rw [he]
      omega
    · unfold jobSpec
      simp only
      have he : k + (t / 86400 - k) = t / 86400 := by omega
      rw [he]
      omega

/-! ### Retry-loop helpers -/

/-- Whatever the server does, the retry loop either fails having
delivered nothing, or succeeds having delivered exactly one prefix of
the batch, the one the server accepted. -/
theorem sendLoop_spec {α : Type} (server : List α → SendResult) (entries : List α) :
    ∀ (attempts batchSize : Nat),
      sendLoop server entries batchSize attempts = .failure ∨
      ∃ k, sendLoop server entries batchSize attempts = .success (entries.take k) ∧
        server (entries.take k) = .ok := by
  intro attempts
  induction attempts with
  | zero => intro bs; exact Or.inl rfl
  | succ a ih =>
    intro bs
    cases h : server (entries.take bs) with
    | ok =>
      refine Or.inr ⟨bs, ?_, h⟩
      simp [sendLoop, h]
    | tooLarge =>
      by_cases hbs : bs / 2 < 1
      · exact Or.inl (by simp [sendLoop, h, hbs])
      · rcases ih (bs / 2) with hf | ⟨k, hk, hsrv⟩
        · exact Or.inl (by simp [sendLoop, h, hbs, hf])
        · exact Or.inr ⟨k, by simp [sendLoop, h, hbs, hk], hsrv⟩
    | other =>
      rcases ih bs with hf | ⟨k, hk, hsrv⟩
      · exact Or.inl (by simp [sendLoop, h, hf])
      · exact Or.inr ⟨k, by simp [sendLoop, h, hk], hsrv⟩

/-- Against a server that always answers Payload Too Large, the loop
always ends in the terminal failure (halving to zero or exhausting
`maxRetries`). -/
theorem sendLoop_tooLarge_fails {α : Type} (entries : List α) :
    ∀ (attempts bs : Nat),
      sendLoop (fun _ => SendResult.tooLarge) entries bs attempts = .failure := by
  intro attempts
  induction attempts with
  | zero => intro bs; rfl
  | succ a ih =>
    intro bs
    by_cases hbs : bs / 2 < 1
    · simp [sendLoop, hbs]
    · simp [sendLoop, hbs, ih]

/-! ### Claim theorems -/

/-- C1 (counterexample).  The claim says a 40-entry batch against a
server accepting at most 10 entries per body is eventually delivered
with no entry lost.  In the code, once the halved prefix of 10 succeeds
on the third attempt, `sendToQuickwitWithRetry` returns `nil`: exactly
the first 10 entries were delivered and the remaining 30 are silently
dropped (no caller re-sends a remainder). -/
theorem C1_counterexample_batch40_loses_entries :
    sendToQuickwitWithRetry cap10Server (List.range 40) 3 =
      RetryOutcome.success (List.range 10) ∧
    List.range 10 ≠ List.range 40 := by
  constructor
  · decide
  · decide

/-- C1 (amended).  On a Payload-Too-Large error the loop halves the
working size and retries the first half only, failing terminally when
the halved size is zero; but on success it returns having delivered only
the final working prefix — the rest of the batch is dropped, never
re-sent.  Concretely: every outcome is failure-with-nothing-delivered or
success of one server-accepted prefix; an always-413 server always ends
in failure; and the 40-entry batch against the cap-10 server reports
success having delivered exactly the first 10 entries. -/
theorem C1_amended_halving_delivers_one_prefix :
    (∀ (α : Type) (server : List α → SendResult) (entries : List α) (m : Nat),
      sendToQuickwitWithRetry server entries m = .failure ∨
      ∃ k, sendToQuickwitWithRetry server entries m = .success (entries.take k) ∧
        server (entries.take k) = .ok) ∧
    (∀ (α : Type) (entries : List α) (m : Nat),
      sendToQuickwitWithRetry (fun _ => SendResult.tooLarge) entries m = .failure) ∧
    sendToQuickwitWithRetry cap10Server (List.range 40) 3 =
      RetryOutcome.success (List.range 10) := by
  refine ⟨?_, ?_, by decide⟩
  · intro α server entries m
    exact sendLoop_spec server entries m entries.length
  · intro α entries m
    exact sendLoop_tooLarge_fails entries m entries.length

set_option maxRecDepth 16000 in
/-- C2 (code evaluated at the failing inputs).  `parseLine` is not total:
with an Access-* marker as the last token the unchecked follower access
`parts[i+startIndex+3]` is out of range, and a legacy-format line of
five tokens makes the repeat-check slice `parts[startIndex:startIndex+3]`
overrun (`startIndex = 4`).  Both are runtime panics, not parse
errors. -/
theorem C2_parseLine_panics_on_malformed_input :
    (∀ now : GoNow, parseLine now lineMarkerAtEnd = .panicked) ∧
    parseLine nowOct2024 lineShortOld = .panicked := by
  constructor
  · intro now
    rfl
  · decide

set_option maxRecDepth 16000 in
/-- C5 (code evaluated at the failing input).  `parseTimestamp` tries
`time.RFC3339`, whose layout requires a timezone suffix; the scenario-1
timestamp `2024-10-14T00:00:02` has none, the legacy fallback cannot
parse an ISO string either, and the whole line is rejected as a parse
error — for every clock value.  With a `Z` suffix added, the very same
line parses into exactly the entry the scenario expects, isolating the
missing zone as the only failure. -/
theorem C5_zoneless_iso_timestamp_rejected :
    (∀ now : GoNow, parseLine now scenario1Line = .error) ∧
    rfc3339Parse "2024-10-14T00:00:02" = none ∧
    rfc3339Parse "2024-10-14T00:00:02Z" = some 1728864002 ∧
    parseLine nowOct2024 scenario1LineZoned = .ok
      ⟨1728864002, "host-a", "radiusd", 123, "Access-Accept", scenario1LineZoned,
       "alice@ku.ac.th", "AA-BB-CC-DD-EE-FF", "eduroam.ku.ac.th",
       "eduroam.example.ac.th", "10.0.0.1", 0⟩ := by
  refine ⟨?_, rfl, rfl, ?_⟩
  · intro now
    rfl
  · decide

/-- C9 (counterexample).  The realm-side binary accepts `0` (and any
negative integer) as a day count: `strconv.Atoi` succeeds and the only
bound checked is `d <= 366`, so the run proceeds instead of failing with
usage text. -/
theorem C9_counterexample_zero_days_accepted :
    realmClassifyArg "0" = RealmArg.daysMode 0 ∧
    realmClassifyArg "-5" = RealmArg.daysMode (-5) := by
  constructor
  · decide
  · decide

/-- C9 (amended).  The realm-side binary treats its second argument as a
day count exactly when `strconv.Atoi` succeeds with a value `≤ 366` —
there is no lower bound, so `0` and negatives are accepted.  A numeric
value above 366 falls through to `DD-MM-YYYY` date parsing, which fails
on an all-digit string, and is fatal with usage text. -/
theorem C9_amended_days_accepted_iff_atoi_le_366 :
    (∀ (s : String) (d : Int),
      realmClassifyArg s = RealmArg.daysMode d ↔ (atoiGo s = some d ∧ d ≤ 366)) ∧
    realmClassifyArg "367" = RealmArg.fatal ∧
    realmClassifyArg "3000" = RealmArg.fatal := by
  refine ⟨?_, by decide, by decide⟩
  intro s d
  cases h : atoiGo s with
  | none =>
    cases hd : parseDDMMYYYY s with
    | none => simp [realmClassifyArg, h, hd]
    | some t =>
      obtain ⟨dd, mm, yy⟩ := t
      simp [realmClassifyArg, h, hd]
  | some d0 =>
    by_cases h366 : d0 ≤ 366
    · simp only [realmClassifyArg, h]
      rw [if_pos h366]
      constructor
      · intro hh
        injection hh with hdd
        subst hdd
        exact ⟨rfl, h366⟩
      · rintro ⟨hs, _⟩
        injection hs with hdd
        subst hdd
        rfl
    · simp only [realmClassifyArg, h]
      rw [if_neg h366]
      cases hd : parseDDMMYYYY s with
      | none =>
        simp only [hd]
        constructor
        · intro hh
          exact RealmArg.noConfusion hh
        · rintro ⟨hs, hle⟩
          injection hs with hdd
          subst hdd
          exact absurd hle h366
      | some t =>
        obtain ⟨dd, mm, yy⟩ := t
        simp only [hd]
        constructor
        · intro hh
          exact RealmArg.noConfusion hh
        · rintro ⟨hs, hle⟩
          injection hs with hdd
          subst hdd
          exact absurd hle h366

/-- C10 (confirmed).  In `loadConfig` a `batchSize` or `maxRetries`
value that `strconv.Atoi` rejects leaves the configuration unchanged —
the built-in defaults 30 000 and 3 are retained — and such a value is
never an error: validation checks only the four required string keys. -/
theorem C10_nonint_batch_keys_ignored :
    (defaultConfig.BatchSize = 30000 ∧ defaultConfig.MaxRetries = 3) ∧
    (∀ (c : Config) (v : String), atoiGo v = none → applyConfigKV c "batchSize" v = c) ∧
    (∀ (c : Config) (v : String), atoiGo v = none → applyConfigKV c "maxRetries" v = c) ∧
    loadConfigLines
        ["logFilePath=/var/log/relay.log", "quickwitURL=http://qw:7280",
         "username=u", "password=p", "batchSize=abc", "maxRetries="] =
      some ⟨"/var/log/relay.log", "http://qw:7280", "u", "p", 30000, 3⟩ := by
  refine ⟨⟨rfl, rfl⟩, ?_, ?_, by decide⟩
  · intro c v h
    unfold applyConfigKV
    rw [if_neg (by decide), if_neg (by decide), if_neg (by decide), if_neg (by decide),
      if_pos rfl, h]
  · intro c v h
    unfold applyConfigKV
    rw [if_neg (by decide), if_neg (by decide), if_neg (by decide), if_neg (by decide),
      if_neg (by decide), if_pos rfl, h]

/-- C10 witness: the non-integer value `"abc"` hits the hypothesis of
the theorem and the configuration is unchanged. -/
theorem C10_nonint_batch_keys_ignored_witness :
    atoiGo "abc" = none ∧
    applyConfigKV defaultConfig "batchSize" "abc" = defaultConfig ∧
    applyConfigKV defaultConfig "maxRetries" "abc" = defaultConfig :=
  ⟨by decide,
   C10_nonint_batch_keys_ignored.2.1 defaultConfig "abc" (by decide),
   C10_nonint_batch_keys_ignored.2.2.1 defaultConfig "abc" (by decide)⟩

/-- C3 (counterexample).  The claim's union `[startDate, endDate)` is
not achieved: for the one-day range on epoch day 1, the second
172799 (= 1970-01-02T23:59:59, the last whole second of the day) lies
inside the requested interval — its instant is at or after `startDate`
and strictly before `endDate` = 23:59:59.999999999 — yet no emitted Job
contains it, because the single Job is capped at `endDate.Unix()` =
172799 exclusive.  Every requested range has this one-second terminal
gap. -/
theorem C3_counterexample_final_second_uncovered :
    (∀ j ∈ enumerateJobs 1 1, ¬ jobContains j 172799) ∧
    startNsOfDay 1 ≤ 172799 * nsPerSec ∧
    172799 * nsPerSec < endNsOfDay 1 := by
  refine ⟨?_, by decide, by decide⟩
  decide

/-- C3 (amended).  For every requested day-aligned range, each emitted
Job satisfies start < end, the Jobs are pairwise disjoint as half-open
second intervals, and their union is exactly the half-open interval from
`startDate.Unix()` to `endDate.Unix()` — one second short of the claim's
`[startDate, endDate)`: the final second `dE * 86400 + 86399` (23:59:59
of the last day) lies before `endDate` (= 23:59:59.999999999) but in no
Job, because the last Job's end timestamp is the truncation
`endDate.Unix()` and Quickwit's `end_timestamp` is exclusive.  (The
range is identified by its first and last epoch-day numbers.) -/
theorem C3_jobs_partition_range (dS dE : Nat) :
    (∀ j ∈ enumerateJobs dS dE, j.StartTimestamp < j.EndTimestamp) ∧
    (enumerateJobs dS dE).Pairwise
      (fun a b => ∀ t : Nat, ¬(jobContains a t ∧ jobContains b t)) ∧
    (∀ t : Nat, (∃ j ∈ enumerateJobs dS dE, jobContains j t) ↔
      dS * 86400 ≤ t ∧ t < dE * 86400 + 86399) ∧
    (∀ j ∈ enumerateJobs dS dE, ¬ jobContains j (dE * 86400 + 86399)) ∧
    (dE * 86400 + 86399) * nsPerSec < endNsOfDay dE := by
  rw [enumerateJobs_eq_mkJobs]
  refine ⟨fun j hj => mkJobs_width_pos hj, ?_, mkJobs_union dS dE, ?_, ?_⟩
  · refine (mkJobs_chained dS dE).imp ?_
    intro a b hab t hc
    obtain ⟨⟨_, ha2⟩, hb1, _⟩ := hc
    omega
  · intro j hj hc
    have := (mkJobs_union dS dE (dE * 86400 + 86399)).mp ⟨j, hj, hc⟩
    omega
  · rw [nsPerSec_val, endNsOfDay_val]
    have h1 : (dE * 86400 + 86399) * 1000000000 =
        (dE + 1) * 86400000000000 - 1000000000 := by ring_nf; omega
    omega

/-- C3 witness: a concrete Job of the 3-day range starting at epoch day
1 is well-formed. -/
theorem C3_jobs_partition_range_witness :
    Job.mk 86400 172800 ∈ enumerateJobs 1 3 ∧
    (Job.mk 86400 172800).StartTimestamp < (Job.mk 86400 172800).EndTimestamp :=
  ⟨by decide, (C3_jobs_partition_range 1 3).1 (Job.mk 86400 172800) (by decide)⟩

/-- C4 (confirmed).  Cross-map consistency of the query results: a
user's recorded provider set is exactly the set of providers observed
with that user, symmetrically for providers' user sets, every user in a
provider's set is a key of `Result.Users`, and every station in a
realm's station set is a key of `Result.Stations`. -/
theorem C4_cross_maps_consistent :
    (∀ (entries : List AggEntry) (u p : String),
      p ∈ userProvidersOf (processResults entries) u ↔ obsRealm entries u p) ∧
    (∀ (entries : List AggEntry) (p u : String),
      u ∈ provUsersOf (processResults entries) p ↔ obsRealm entries u p) ∧
    (∀ (entries : List AggEntry) (p u : String),
      u ∈ provUsersOf (processResults entries) p →
        (slookup (processResults entries).Users u).isSome) ∧
    (∀ (entries : List SPAggEntry) (rl s : String),
      s ∈ spRealmStations (processResultsSP entries) rl →
        (slookup (processResultsSP entries).Stations s).isSome) := by
  refine ⟨processResults_users_mem, processResults_provs_mem, ?_, ?_⟩
  · intro entries p u h
    obtain ⟨e, he, hu, _⟩ := (processResults_provs_mem entries p u).mp h
    exact (processResults_users_key entries u).mpr ⟨e, he, hu⟩
  · intro entries rl s h
    obtain ⟨e, he, _, hs⟩ := (processResultsSP_realmStations entries rl s).mp h
    exact (processResultsSP_stationsKey entries s).mpr ⟨e, he, hs⟩

/-- C4 witness: on singleton runs the membership hypotheses hold and the
key-consistency conclusions follow by the theorem. -/
theorem C4_cross_maps_consistent_witness :
    "alice" ∈ provUsersOf (processResults [⟨"alice", "sp1", 5⟩]) "sp1" ∧
    (slookup (processResults [⟨"alice", "sp1", 5⟩]).Users "alice").isSome ∧
    "S1" ∈ spRealmStations (processResultsSP [⟨"u1", "r1", "S1", 0⟩]) "r1" ∧
    (slookup (processResultsSP [⟨"u1", "r1", "S1", 0⟩]).Stations "S1").isSome :=
  ⟨by decide,
   C4_cross_maps_consistent.2.2.1 [⟨"alice", "sp1", 5⟩] "sp1" "alice" (by decide),
   by decide,
   C4_cross_maps_consistent.2.2.2 [⟨"u1", "r1", "S1", 0⟩] "r1" "S1" (by decide)⟩

/-- C6 (counterexample).  The SP-side station array is sorted by
descending `total_auths`, not by descending user count: station AA (1
user, 5 auths) is materialised before station BB (2 users, 2 auths), so
the user counts appear in ascending order `[1, 2]`. -/
theorem C6_counterexample_station_sort_not_by_user_count :
    ((createOutputDataSP (processResultsSP exSPEntries)).StationStats.map
        (fun s => (s.StationID, s.TotalAuths, s.TotalUsers)) =
      [("AA", 5, 1), ("BB", 2, 2)]) ∧
    ¬ List.Sorted (fun a b : Nat => b ≤ a)
        ((createOutputDataSP (processResultsSP exSPEntries)).StationStats.map
          (fun s => s.TotalUsers)) := by
  constructor
  · decide
  · decide

/-- C6 (amended).  The realm query sorts providers by descending user
count and users by ascending username; the SP query sorts stations and
realm rows by descending `total_auths` and each station's user details
by ascending username.  `sort.Slice` is unstable and no secondary
tie-break key is applied; what every execution guarantees is a
permutation pairwise-sorted under the source comparator, which these
orders state. -/
theorem C6_amended_output_sort_orders :
    (∀ res : RealmResult, List.Sorted provOrder (createOutputData res).ProviderStats) ∧
    (∀ res : RealmResult, List.Sorted userOrder (createOutputData res).UserStats) ∧
    (∀ res : SPResult, List.Sorted stationOrder (createOutputDataSP res).StationStats) ∧
    (∀ res : SPResult, List.Sorted realmStatOrder (createOutputDataSP res).RealmStats) ∧
    (∀ (res : SPResult) (st : StationOut),
      st ∈ (createOutputDataSP res).StationStats →
        List.Sorted userDetailOrder st.UserDetails) := by
  refine ⟨fun res => List.sorted_insertionSort provOrder _,
    fun res => List.sorted_insertionSort userOrder _,
    fun res => List.sorted_insertionSort stationOrder _,
    fun res => List.sorted_insertionSort realmStatOrder _, ?_⟩
  intro res st hmem
  unfold createOutputDataSP at hmem
  simp only at hmem
  rw [List.mem_insertionSort] at hmem
  rcases List.mem_map.mp hmem with ⟨kv, _, rfl⟩
  exact List.sorted_insertionSort userDetailOrder _

/-- C6 witness: the station row of `resWitnessSP` is in the output and
its user details are sorted. -/
theorem C6_amended_output_sort_orders_witness :
    StationOut.mk "S1" 1 1 [UserDetail.mk "u1" "r1" [3]] ∈
      (createOutputDataSP resWitnessSP).StationStats ∧
    List.Sorted userDetailOrder
      (StationOut.mk "S1" 1 1 [UserDetail.mk "u1" "r1" [3]]).UserDetails :=
  ⟨by decide, C6_amended_output_sort_orders.2.2.2.2 resWitnessSP _ (by decide)⟩

/-- C7 (counterexample).  A map bucket that lacks a field read by an
unchecked type assertion — here `doc_count` — does not get skipped: the
fold panics, unlike the claim's "causes only that bucket to be skipped,
never a failure or a panic". -/
theorem C7_counterexample_missing_doc_count_panics :
    processAggregations respKeyNoDocCount = AggOutcome.panicked := by
  decide

/-- C7 (amended).  A missing required aggregation path (`aggregations`,
`unique_users`/`by_station`, or `buckets`) fails the Job; a non-map
bucket and a zero-`doc_count` date-histogram bucket are skipped; but a
map bucket missing its `key` (or `doc_count`) hits an unchecked type
assertion and panics instead of being skipped — on both the realm-side
and SP-side folds. -/
theorem C7_amended_fold_fail_skip_panic :
    processAggregations [] = AggOutcome.fail ∧
    processAggregations [("aggregations", JVal.jobj [])] = AggOutcome.fail ∧
    processAggregations [("aggregations", JVal.jobj [("unique_users", JVal.jobj [])])] =
      AggOutcome.fail ∧
    processAggregations respNonMapBucket = AggOutcome.ok [] 0 ∧
    processAggregations respWellFormed =
      AggOutcome.ok [⟨"alice", "sp1", 1728950400⟩] 2 ∧
    processAggregations respMissingKeyBucket = AggOutcome.panicked ∧
    processAggregationsSP [] = AggOutcome.fail ∧
    processAggregationsSP [("aggregations", JVal.jobj [])] = AggOutcome.fail ∧
    processAggregationsSP [("aggregations", JVal.jobj [("by_station", JVal.jobj [])])] =
      AggOutcome.fail ∧
    processAggregationsSP respSPNonMapBucket = AggOutcome.ok [] 0 ∧
    processAggregationsSP respSPMissingKeyBucket = AggOutcome.panicked := by
  refine ⟨rfl, rfl, rfl, by decide, by decide, by decide, rfl, rfl, rfl, by decide, by decide⟩

/-- C8 (counterexample).  Not every Job of the `y2024` range is 86 400 s
wide: the final Job ends at `endDate.Unix()` = 23:59:59 and is 86 399 s
wide. -/
theorem C8_counterexample_last_job_is_86399s :
    ∃ j ∈ enumerateJobs (daysFromEpoch 2024 1 1) (daysFromEpoch 2024 12 31),
      j.EndTimestamp - j.StartTimestamp ≠ 86400 := by
  rw [show daysFromEpoch 2024 1 1 = 19723 by decide,
    show daysFromEpoch 2024 12 31 = 20088 by decide, enumerateJobs_eq_mkJobs]
  refine ⟨jobSpec 20088 19723 365, ?_, by decide⟩
  exact List.mem_map.mpr ⟨365, List.mem_range.mpr (by decide), rfl⟩

set_option maxRecDepth 40000 in
/-- C8 (amended).  For `y2024` the SP-side driver emits exactly 366
Jobs; the first 365 are 86 400 s wide and the last is 86 399 s wide (its
end is the Unix second of 23:59:59.999999999); together they cover the
half-open second interval from 2024-01-01T00:00:00Z (1704067200) to
2024-12-31T23:59:59Z (1735689599). -/
theorem C8_amended_y2024_366_jobs :
    spDaysForYear 2024 = 366 ∧
    daysFromEpoch 2024 1 1 = 19723 ∧
    daysFromEpoch 2024 12 31 = 20088 ∧
    (enumerateJobs 19723 20088).length = 366 ∧
    (enumerateJobs 19723 20088).map (fun j => j.EndTimestamp - j.StartTimestamp) =
      List.replicate 365 86400 ++ [86399] ∧
    (∀ t : Nat, (∃ j ∈ enumerateJobs 19723 20088, jobContains j t) ↔
      1704067200 ≤ t ∧ t < 1735689599) := by
  refine ⟨by decide, by decide, by decide, ?_, ?_, ?_⟩
  · rw [enumerateJobs_eq_mkJobs]
    unfold mkJobs
    rw [List.length_map, List.length_range]
  · rw [enumerateJobs_eq_mkJobs]
    decide
  · intro t
    rw [enumerateJobs_eq_mkJobs]
    have h := mkJobs_union 19723 20088 t
    norm_num at h ⊢
    exact h

end L2Q
